import Mathlib

/-!
Verification of the chem-flow record-based workflow store.

This file gives a shallow embedding of the flow persistence and branching
subsystem: the in-memory reference repository `InMemoryFlowRepository`
(crates/flow/src/stubs.rs), the Diesel-backed `create_branch`
(crates/chem-persistence/src/lib.rs), and the engine-level step
synchronisation of `ChemicalFlowEngine`
(crates/chem-workflow/src/engine/chemical_flow.rs).

Modelling conventions:
- `Uuid` values are modelled as natural numbers drawn from a fresh-id
  counter `nextId` carried in the store state; `Uuid::new_v4()` becomes
  "take the counter and bump it", which captures exactly the freshness
  the code relies on.
- `i64` cursors and versions are modelled as `Int`; the one place the
  code does modular/saturating machine arithmetic (`saturating_add(1)`
  on the version, `as u32` casts in the engine) is modelled explicitly.
- JSON payloads are opaque to the core (the spec stresses this); they
  are modelled by a free type with one constructor per JSON value the
  core itself constructs or tests (the empty object and the
  BranchCreated payload) plus an injection for every other value.
- Timestamps (`created_at`) are never read by any modelled operation
  and are omitted.
- `HashMap` tables become association lists with single-entry-per-key
  operations; iteration order is fixed to list order (the repository's
  uses of iteration are order-independent).
-/

namespace ChemFlow

/-- Opaque JSON values as the core manipulates them.  `emptyObj` is
`serde_json::json!({})` (the empty object); `parentObj p` is the
BranchCreated payload, an object whose single field `parent` holds the
parent flow id; `lit s` injects any other JSON value by its canonical
serialisation.  Distinct constructors denote distinct JSON values. -/
inductive Json where
  | emptyObj : Json
  | parentObj (parent : Nat) : Json
  | lit (s : String) : Json
deriving DecidableEq, Repr

/-- Modelled from the spec: `FlowMeta` of `flow::domain` (the file
`crates/flow/src/domain.rs` is not in the source snapshot; the shape is
the one given in spec section 6 and used throughout `stubs.rs`).
`created_at` is omitted (never read by modelled operations). -/
structure FlowMeta where
  id : Nat
  name : Option String
  status : Option String
  created_by : Option String
  current_cursor : Int
  current_version : Int
  parent_flow_id : Option Nat
  parent_cursor : Option Int
  metadata : Json
deriving DecidableEq, Repr

/-- Modelled from the spec: `FlowData` of `flow::domain`, the step
record (spec section 6); `created_at` omitted. -/
structure FlowData where
  id : Nat
  flow_id : Nat
  cursor : Int
  key : String
  payload : Json
  metadata : Json
  command_id : Option Nat
deriving DecidableEq, Repr

/-- Modelled from the spec: `SnapshotMeta` of `flow::domain` (spec
section 6); `created_at` omitted. -/
structure SnapshotMeta where
  id : Nat
  flow_id : Nat
  cursor : Int
  state_ptr : String
  metadata : Json
deriving DecidableEq, Repr

/-- Modelled from the spec: `PersistResult` of `flow::domain`. -/
inductive PersistResult where
  | ok (new_version : Int)
  | conflict
deriving DecidableEq, Repr

/-- Errors of `flow::errors` (`FlowError`) as used by the repository. -/
inductive FlowError where
  | notFound (msg : String)
  | conflict (msg : String)
  | storage (msg : String)
  | other (msg : String)
deriving DecidableEq, Repr

/-! ### Association-list maps (the model of `HashMap`) -/

/-- Model of `HashMap::get`: value of the first entry with the given key. -/
def lookupA {α : Type} : List (Nat × α) → Nat → Option α
  | [], _ => none
  | (k', v) :: rest, k => if k' = k then some v else lookupA rest k

/-- Model of `HashMap::insert`: replace the entry if the key is present,
append otherwise. -/
def insertA {α : Type} : List (Nat × α) → Nat → α → List (Nat × α)
  | [], k, v => [(k, v)]
  | (k', v') :: rest, k, v =>
      if k' = k then (k, v) :: rest else (k', v') :: insertA rest k v

/-- Model of `HashMap::remove`: drop every entry with the given key. -/
def removeA {α : Type} (l : List (Nat × α)) (k : Nat) : List (Nat × α) :=
  l.filter (fun kv => kv.1 != k)

/-! ### The in-memory repository state -/

/-- State of `InMemoryFlowRepository`: the three `HashMap` tables plus
the fresh-id counter that models `Uuid::new_v4()`. -/
structure Store where
  flows : List (Nat × FlowMeta)
  steps : List (Nat × List FlowData)
  snapshots : List (Nat × SnapshotMeta)
  nextId : Nat
deriving DecidableEq, Repr

def emptyStore : Store := ⟨[], [], [], 0⟩

/-- Largest `i64` value. -/
def i64Max : Int := 2 ^ 63 - 1

/-- Rust `i64::saturating_add(1)`. -/
def satAdd1 (v : Int) : Int := min (v + 1) i64Max

/-- Records stored for a flow (empty when the flow has no entry). -/
def stepsOf (s : Store) (flow_id : Nat) : List FlowData :=
  (lookupA s.steps flow_id).getD []

/-! ### Repository operations (from `InMemoryFlowRepository`) -/

/-- Model of `create_flow`: mint a fresh id and insert metadata with cursor 0,
version 0 and no parent. -/
def create_flow (s : Store) (name status : Option String) (metadata : Json) :
    Nat × Store :=
  let id := s.nextId
  let meta : FlowMeta :=
    { id := id, name := name, status := status, created_by := none,
      current_cursor := 0, current_version := 0,
      parent_flow_id := none, parent_cursor := none, metadata := metadata }
  (id, { s with flows := insertA s.flows id meta, nextId := id + 1 })

/-- Model of `read_data`: the flow's records with `cursor > from_cursor`. -/
def read_data (s : Store) (flow_id : Nat) (from_cursor : Int) : List FlowData :=
  (stepsOf s flow_id).filter (fun d => from_cursor < d.cursor)

/-- The idempotency test of `persist_data`: the record carries a
`command_id` and some stored record of the flow has the same one. -/
def dupCheck (s : Store) (data : FlowData) : Bool :=
  match data.command_id with
  | some c => (stepsOf s data.flow_id).any (fun d => d.command_id == some c)
  | none => false

/-- Effect of a successful insert in `persist_data`: append the record
and advance the flow's version (saturating) and cursor. -/
def persistApply (s : Store) (data : FlowData) (m : FlowMeta) : Store :=
  { s with steps := insertA s.steps data.flow_id (stepsOf s data.flow_id ++ [data]),
           flows := insertA s.flows data.flow_id
                      { m with current_version := satAdd1 m.current_version,
                               current_cursor := data.cursor } }

/-- Model of `persist_data`: optimistic append with `command_id` deduplication
and cursor monotonicity, advancing version (saturating) and cursor. -/
def persist_data (s : Store) (data : FlowData) (expected_version : Int) :
    Except FlowError PersistResult × Store :=
  match lookupA s.flows data.flow_id with
  | none => (Except.error (FlowError.notFound "flow"), s)
  | some m =>
    if m.current_version ≠ expected_version then
      (Except.ok PersistResult.conflict, s)
    else if dupCheck s data then
      (Except.ok (PersistResult.ok m.current_version), s)
    else if data.cursor ≤ m.current_cursor then
      (Except.error (FlowError.conflict "cursor not greater than current"), s)
    else
      (Except.ok (PersistResult.ok (satAdd1 m.current_version)),
       persistApply s data m)

/-- Model of `save_snapshot`: record snapshot metadata under a fresh id. -/
def save_snapshot (s : Store) (flow_id : Nat) (seq : Int) (state_ptr : String)
    (metadata : Json) : Nat × Store :=
  let id := s.nextId
  let meta : SnapshotMeta :=
    { id := id, flow_id := flow_id, cursor := seq, state_ptr := state_ptr,
      metadata := metadata }
  (id, { s with snapshots := insertA s.snapshots id meta, nextId := id + 1 })

/-- Clone a list of parent records for a new branch: each clone gets a
fresh record id (consecutive ids from `n`) and the new flow id, all
other fields preserved. -/
def reId : List FlowData → Nat → Nat → List FlowData
  | [], _, _ => []
  | d :: rest, fid, n => { d with id := n, flow_id := fid } :: reId rest fid (n + 1)

/-- Metadata of a new branch: the parent's `FlowMeta` cloned and
overridden when the parent exists, a synthesized one otherwise. -/
def branchMeta (s : Store) (parent_flow_id : Nat) (name status : Option String)
    (parent_cursor : Int) (metadata : Json) (new_id : Nat) : FlowMeta :=
  match lookupA s.flows parent_flow_id with
  | some pm =>
    { pm with id := new_id,
              parent_flow_id := some parent_flow_id,
              parent_cursor := some parent_cursor,
              current_cursor := parent_cursor,
              current_version := 0,
              name := if name.isSome then name else pm.name,
              status := if status.isSome then status else pm.status,
              metadata := if metadata ≠ Json.emptyObj then metadata else pm.metadata }
  | none =>
    { id := new_id,
      name := (name.orElse (fun _ => some ("branch-of-" ++ toString parent_flow_id))),
      status := (status.orElse (fun _ => some "queued")),
      created_by := none,
      current_cursor := parent_cursor,
      current_version := 0,
      parent_flow_id := some parent_flow_id,
      parent_cursor := some parent_cursor,
      metadata := metadata }

/-- Model of `create_branch` of `InMemoryFlowRepository`: clone the parent's
metadata (or synthesize one when the parent is absent), copy the
parent's records with `cursor ≤ parent_cursor`, and append a
`BranchCreated` record at `parent_cursor + 1`. -/
def create_branch (s : Store) (parent_flow_id : Nat) (name status : Option String)
    (parent_cursor : Int) (metadata : Json) : Nat × Store :=
  let new_id := s.nextId
  let meta := branchMeta s parent_flow_id name status parent_cursor metadata new_id
  let copiedSrc := (stepsOf s parent_flow_id).filter (fun d => d.cursor ≤ parent_cursor)
  let copied := reId copiedSrc new_id (new_id + 1)
  let bcId := new_id + 1 + copiedSrc.length
  let bc : FlowData :=
    { id := bcId, flow_id := new_id, cursor := parent_cursor + 1,
      key := "BranchCreated", payload := Json.parentObj parent_flow_id,
      metadata := Json.emptyObj, command_id := none }
  (new_id,
   { s with flows := insertA s.flows new_id meta,
            steps := insertA s.steps new_id (stepsOf s new_id ++ copied ++ [bc]),
            nextId := bcId + 1 })

/-- Model of `branch_exists`: the flows table contains the id. -/
def branch_exists (s : Store) (flow_id : Nat) : Bool :=
  (lookupA s.flows flow_id).isSome

/-- Model of `count_steps`: −1 when the flow does not exist, otherwise the
number of its records with `cursor ≤ current_cursor`. -/
def count_steps (s : Store) (flow_id : Nat) : Int :=
  match lookupA s.flows flow_id with
  | none => -1
  | some m =>
    ((stepsOf s flow_id).filter (fun d => d.cursor ≤ m.current_cursor)).length

/-- Orphan fix applied to remaining flows when `fid` is deleted: a flow
whose `parent_flow_id` is `fid` loses both parent fields. -/
def orphanFix (fid : Nat) (m : FlowMeta) : FlowMeta :=
  if m.parent_flow_id = some fid then
    { m with parent_flow_id := none, parent_cursor := none }
  else m

/-- Model of `delete_branch`: remove the flow's metadata, records and snapshots,
then null the parent linkage of every remaining child. -/
def delete_branch (s : Store) (flow_id : Nat) : Except FlowError Unit × Store :=
  match lookupA s.flows flow_id with
  | none => (Except.error (FlowError.notFound ("flow " ++ toString flow_id)), s)
  | some _ =>
    (Except.ok (),
     { s with flows := (removeA s.flows flow_id).map
                         (fun kv => (kv.1, orphanFix flow_id kv.2)),
              steps := removeA s.steps flow_id,
              snapshots := s.snapshots.filter (fun kv => kv.2.flow_id != flow_id) })

/-- Does this flow metadata mark a child of `flow_id` forked at or
beyond `from_cursor`? -/
def childCond (flow_id : Nat) (from_cursor : Int) (m : FlowMeta) : Bool :=
  match m.parent_flow_id, m.parent_cursor with
  | some p, some pc => p = flow_id ∧ from_cursor ≤ pc
  | _, _ => false

/-- The children scheduled for deletion by `delete_from_step`: flows
whose `parent_flow_id` is the target and whose `parent_cursor` is at or
beyond the truncation cursor. -/
def childrenToDelete (s : Store) (flow_id : Nat) (from_cursor : Int) : List Nat :=
  s.flows.filterMap (fun kv =>
    if childCond flow_id from_cursor kv.2 then some kv.1 else none)

/-- Sequential `delete_branch` of a list of flow ids, propagating the
first error (the `?` in the Rust loop). -/
def deleteAll : List Nat → Store → Except FlowError Unit × Store
  | [], s => (Except.ok (), s)
  | fid :: rest, s =>
    match delete_branch s fid with
    | (Except.ok _, s') => deleteAll rest s'
    | (Except.error e, s') => (Except.error e, s')

/-- Step-truncation part of `delete_from_step`: keep only the flow's
records with `cursor < from_cursor` (no entry means nothing to do). -/
def truncSteps (s : Store) (flow_id : Nat) (from_cursor : Int) : Store :=
  match lookupA s.steps flow_id with
  | some l => { s with steps := insertA s.steps flow_id
                         (l.filter (fun d => d.cursor < from_cursor)) }
  | none => s

/-- Model of `delete_from_step`: keep the flow's records with
`cursor < from_cursor`, then delete every child branch whose
`parent_cursor ≥ from_cursor`. -/
def delete_from_step (s : Store) (flow_id : Nat) (from_cursor : Int) :
    Except FlowError Unit × Store :=
  match lookupA s.flows flow_id with
  | none => (Except.error (FlowError.notFound ("flow " ++ toString flow_id)), s)
  | some _ =>
    let s1 := truncSteps s flow_id from_cursor
    deleteAll (childrenToDelete s1 flow_id from_cursor) s1

/-! ### The Diesel-backed `create_branch` (chem-persistence) -/

/-- Clone a list of parent snapshots for a new branch: fresh snapshot
ids (consecutive from `n`), the new flow id, all other fields kept. -/
def reIdSnaps : List SnapshotMeta → Nat → Nat → List SnapshotMeta
  | [], _, _ => []
  | m :: rest, fid, n => { m with id := n, flow_id := fid } :: reIdSnaps rest fid (n + 1)

/-- Model of `DieselFlowRepository::create_branch`: inside one transaction,
insert a new flow row (caller's name/status/metadata, cursor and parent
fields set, version 0), copy the parent's `flow_data` rows with
`cursor ≤ parent_cursor` under fresh record ids, and copy the parent's
snapshots with `cursor ≤ parent_cursor` under fresh snapshot ids.  It
writes no `BranchCreated` record. -/
def dieselCreateBranch (s : Store) (parent_flow_id : Nat) (name status : Option String)
    (parent_cursor : Int) (metadata : Json) : Nat × Store :=
  let new_id := s.nextId
  let rows := (stepsOf s parent_flow_id).filter (fun d => d.cursor ≤ parent_cursor)
  let parentSnaps :=
    (s.snapshots.map Prod.snd).filter
      (fun m => m.flow_id == parent_flow_id && m.cursor ≤ parent_cursor)
  let meta : FlowMeta :=
    { id := new_id, name := name, status := status, created_by := none,
      current_cursor := parent_cursor, current_version := 0,
      parent_flow_id := some parent_flow_id,
      parent_cursor := some parent_cursor, metadata := metadata }
  let copied := reId rows new_id (new_id + 1)
  let snapStart := new_id + 1 + rows.length
  let snapCopies := reIdSnaps parentSnaps new_id snapStart
  (new_id,
   { s with flows := insertA s.flows new_id meta,
            steps := insertA s.steps new_id (stepsOf s new_id ++ copied),
            snapshots := s.snapshots ++ snapCopies.map (fun m => (m.id, m)),
            nextId := snapStart + parentSnaps.length })

/-! ### The engine's step synchronisation (chem-workflow)

`ChemicalFlowEngine` keeps a per-flow key→JSON side table through the
repository's `get_meta`/`set_meta` (FlowMetaKV).  Those two operations
are declared and called by the engine but their implementation file is
not part of the source snapshot, so the KV table is modelled from the
spec.  Only the reserved key `flow_metadata` matters here. -/

/-- Modelled from the spec: the value of the reserved FlowMetaKV key
`flow_metadata` — `null` means "not set"; otherwise a JSON object with
an optional numeric `current_step` field (a `u64` in JSON) and an
optional string `status` field (spec sections 3 and 6). -/
inductive MetaVal where
  | null
  | obj (current_step : Option Nat) (status : Option String)
deriving DecidableEq, Repr

/-- Modelled from the spec: `get_meta(flow_id, "flow_metadata")`
returns the stored value, or `null` when the key was never set. -/
def getMetaKV (kv : List (Nat × MetaVal)) (flow_id : Nat) : MetaVal :=
  (lookupA kv flow_id).getD MetaVal.null

/-- Rust `i64 as u32`: the low 32 bits, two's complement. -/
def i64ToU32 (v : Int) : Nat := (v % (2 ^ 32 : Int)).toNat

/-- Rust `u32::saturating_add(1)`. -/
def u32SatSucc (n : Nat) : Nat := min (n + 1) (2 ^ 32 - 1)

/-- Model of `ChemicalFlowEngine::current_step`: read
`flow_metadata.current_step` from the KV as a `u64` truncated to `u32`,
defaulting to 0 when the entry or the field is missing. -/
def currentStep (kv : List (Nat × MetaVal)) (flow_id : Nat) : Nat :=
  match getMetaKV kv flow_id with
  | MetaVal.obj (some n) _ => n % 2 ^ 32
  | _ => 0

/-- Model of `ChemicalFlowEngine::determine_current_step_from_data`: the
successor of the largest cursor among `read_data(flow_id, -1)` (as a
`u32`), else the successor of the flow's `current_cursor`, else 0. -/
def determineCurrentStepFromData (s : Store) (flow_id : Nat) : Nat :=
  match ((read_data s flow_id (-1)).map (fun d => d.cursor)).max? with
  | some m => u32SatSucc (i64ToU32 m)
  | none =>
    match lookupA s.flows flow_id with
    | some meta => u32SatSucc (i64ToU32 meta.current_cursor)
    | none => 0

/-- Model of `ChemicalFlowEngine::synchronize_step_state` for an engine defined
through `impl_chemical_flow!`: when the `flow_metadata` entry is set
and non-null, the macro's `apply_flow_metadata` copies its fields into
the engine's in-memory state and leaves the KV unchanged; otherwise the
fallback writes `flow_metadata ← { current_step: <determined step> }`. -/
def synchronizeStepState (s : Store) (kv : List (Nat × MetaVal)) (flow_id : Nat) :
    List (Nat × MetaVal) :=
  match getMetaKV kv flow_id with
  | MetaVal.null =>
      insertA kv flow_id (MetaVal.obj (some (determineCurrentStepFromData s flow_id)) none)
  | MetaVal.obj _ _ => kv

/-- KV effect of `ChemicalFlowEngine::rehydrate_from_storage`:
`rehydrate_from_snapshot` only decodes the latest snapshot into the
engine's in-memory state (it touches neither the store nor the KV), so
the side table after rehydration is `synchronize_step_state`'s. -/
def rehydrateKV (s : Store) (kv : List (Nat × MetaVal)) (flow_id : Nat) :
    List (Nat × MetaVal) :=
  synchronizeStepState s kv flow_id

/-! ### Reachable store states and the store invariant -/

/-- Store states reachable from the empty store by the repository's
mutating operations (the sequence quantified over in the spec's
invariants). -/
inductive Reachable : Store → Prop where
  | init : Reachable emptyStore
  | create_flow (s : Store) (name status : Option String) (md : Json) :
      Reachable s → Reachable (create_flow s name status md).2
  | persist_data (s : Store) (d : FlowData) (v : Int) :
      Reachable s → Reachable (persist_data s d v).2
  | create_branch (s : Store) (p : Nat) (name status : Option String) (k : Int) (md : Json) :
      Reachable s → Reachable (create_branch s p name status k md).2
  | delete_branch (s : Store) (f : Nat) :
      Reachable s → Reachable (delete_branch s f).2
  | delete_from_step (s : Store) (f : Nat) (k : Int) :
      Reachable s → Reachable (delete_from_step s f k).2

/-- Cursors of a record list, in storage order. -/
def cursorsOf (l : List FlowData) : List Int := l.map (fun d => d.cursor)

/-- Store invariant maintained by every operation: keys are unique and
below the fresh-id counter, each flow's record list is weakly sorted by
cursor, and every record's cursor is at most the owning flow's
`current_cursor + 1` (the `BranchCreated` marker sits exactly one past
the branch's cursor; everything else is at or below it). -/
structure StoreWF (s : Store) : Prop where
  flows_nodup : (s.flows.map Prod.fst).Nodup
  steps_nodup : (s.steps.map Prod.fst).Nodup
  flows_lt : ∀ kv ∈ s.flows, kv.1 < s.nextId
  steps_lt : ∀ kv ∈ s.steps, kv.1 < s.nextId
  sorted : ∀ kv ∈ s.steps, (cursorsOf kv.2).Sorted (· ≤ ·)
  bounded : ∀ kv ∈ s.steps, ∃ m, lookupA s.flows kv.1 = some m ∧
      ∀ d ∈ kv.2, d.cursor ≤ m.current_cursor + 1

/-! ### Association-list lemmas -/

theorem lookupA_insertA_self {α : Type} (l : List (Nat × α)) (k : Nat) (v : α) :
    lookupA (insertA l k v) k = some v := by
  induction l with
  | nil => simp [insertA, lookupA]
  | cons hd tl ih =>
    obtain ⟨a, b⟩ := hd
    by_cases h : a = k
    · simp [insertA, h, lookupA]
    · simp [insertA, h, lookupA, ih]

theorem lookupA_insertA_ne {α : Type} (l : List (Nat × α)) (k k' : Nat) (v : α)
    (h : k' ≠ k) : lookupA (insertA l k v) k' = lookupA l k' := by
  have hne : ¬ k = k' := fun hh => h hh.symm
  induction l with
  | nil => simp [insertA, lookupA, hne]
  | cons hd tl ih =>
    obtain ⟨a, b⟩ := hd
    by_cases hk : a = k
    · subst hk
      simp [insertA, lookupA, hne]
    · simp [insertA, hk, lookupA, ih]

theorem lookupA_mem {α : Type} {l : List (Nat × α)} {k : Nat} {v : α}
    (h : lookupA l k = some v) : (k, v) ∈ l := by
  induction l with
  | nil => simp [lookupA] at h
  | cons hd tl ih =>
    obtain ⟨a, b⟩ := hd
    by_cases hk : a = k
    · subst hk
      simp [lookupA] at h
      simp [h]
    · simp [lookupA, hk] at h
      exact List.mem_cons_of_mem _ (ih h)

theorem lookupA_isSome_of_mem {α : Type} {l : List (Nat × α)} {k : Nat} {v : α}
    (h : (k, v) ∈ l) : (lookupA l k).isSome := by
  induction l with
  | nil => simp at h
  | cons hd tl ih =>
    obtain ⟨a, b⟩ := hd
    rcases List.mem_cons.mp h with h1 | h2
    · have : a = k := (Prod.mk.injEq _ _ _ _ ▸ h1.symm).1
      simp [lookupA, this]
    · by_cases hk : a = k
      · simp [lookupA, hk]
      · simp [lookupA, hk]
        exact ih h2

theorem lookupA_eq_none {α : Type} {k : Nat} :
    ∀ {l : List (Nat × α)}, (∀ kv ∈ l, kv.1 ≠ k) → lookupA l k = none
  | [], _ => rfl
  | (a, b) :: tl, h => by
    have h1 : a ≠ k := h (a, b) (List.mem_cons_self _ _)
    simp only [lookupA, h1, if_false]
    exact lookupA_eq_none (fun kv hkv => h kv (List.mem_cons_of_mem _ hkv))

theorem insertA_of_lookup_none {α : Type} {l : List (Nat × α)} {k : Nat} (v : α)
    (h : lookupA l k = none) : insertA l k v = l ++ [(k, v)] := by
  induction l with
  | nil => rfl
  | cons hd tl ih =>
    obtain ⟨a, b⟩ := hd
    by_cases hk : a = k
    · simp [lookupA, hk] at h
    · simp [lookupA, hk] at h
      simp [insertA, hk, ih h]

theorem mem_insertA {α : Type} {k : Nat} {v : α} {kv : Nat × α} :
    ∀ {l : List (Nat × α)}, kv ∈ insertA l k v → kv = (k, v) ∨ kv ∈ l
  | [], h => by simpa [insertA] using h
  | (a, b) :: tl, h => by
    by_cases hk : a = k
    · subst hk
      have hins : insertA ((a, b) :: tl) a v = (a, v) :: tl := by simp [insertA]
      rw [hins] at h
      rcases List.mem_cons.mp h with h1 | h1
      · exact Or.inl h1
      · exact Or.inr (List.mem_cons_of_mem _ h1)
    · simp only [insertA, hk, if_false, List.mem_cons] at h
      rcases h with h1 | h1
      · exact Or.inr (by simp [h1])
      · rcases mem_insertA h1 with h2 | h2
        · exact Or.inl h2
        · exact Or.inr (List.mem_cons_of_mem _ h2)

theorem keys_insertA {α : Type} (l : List (Nat × α)) (k : Nat) (v : α)
    (h : (l.map Prod.fst).Nodup) : ((insertA l k v).map Prod.fst).Nodup := by
  induction l with
  | nil => simp [insertA]
  | cons hd tl ih =>
    obtain ⟨a, b⟩ := hd
    simp only [List.map_cons, List.nodup_cons] at h
    by_cases hk : a = k
    · subst hk
      simpa [insertA] using h
    · simp only [insertA, hk, if_false, List.map_cons, List.nodup_cons]
      constructor
      · intro hmem
        rcases List.mem_map.mp hmem with ⟨kv, hkv, hfst⟩
        rcases mem_insertA hkv with h1 | h1
        · exact hk (by rw [← hfst, h1])
        · exact h.1 (List.mem_map.mpr ⟨kv, h1, hfst⟩)
      · exact ih h.2

theorem mem_removeA {α : Type} {l : List (Nat × α)} {k : Nat} {kv : Nat × α} :
    kv ∈ removeA l k ↔ kv ∈ l ∧ kv.1 ≠ k := by
  simp [removeA, List.mem_filter]

theorem lookupA_removeA_self {α : Type} (l : List (Nat × α)) (k : Nat) :
    lookupA (removeA l k) k = none := by
  apply lookupA_eq_none
  intro kv hkv
  exact (mem_removeA.mp hkv).2

theorem lookupA_removeA_ne {α : Type} (l : List (Nat × α)) (k k' : Nat)
    (h : k' ≠ k) : lookupA (removeA l k) k' = lookupA l k' := by
  induction l with
  | nil => rfl
  | cons hd tl ih =>
    obtain ⟨a, b⟩ := hd
    by_cases hk : a = k
    · subst hk
      have hne : ¬ a = k' := fun hh => h hh.symm
      simpa [removeA, lookupA, hne] using ih
    · by_cases hk' : a = k'
      · subst hk'
        simp [removeA, List.filter_cons, hk, lookupA]
      · simpa [removeA, lookupA, hk, hk'] using ih

theorem lookupA_map_value {α β : Type} (l : List (Nat × α)) (g : α → β) (k : Nat) :
    lookupA (l.map (fun kv => (kv.1, g kv.2))) k = (lookupA l k).map g := by
  induction l with
  | nil => rfl
  | cons hd tl ih =>
    obtain ⟨a, b⟩ := hd
    by_cases hk : a = k
    · simp [lookupA, hk]
    · simp [lookupA, hk, ih]

theorem lookupA_filter_keep {α : Type} (l : List (Nat × α)) (p : Nat × α → Bool)
    (k : Nat) (h : ∀ v : α, p (k, v) = true) :
    lookupA (l.filter p) k = lookupA l k := by
  induction l with
  | nil => rfl
  | cons hd tl ih =>
    obtain ⟨a, b⟩ := hd
    by_cases hk : a = k
    · subst hk
      simp [List.filter_cons, h b, lookupA]
    · by_cases hp : p (a, b)
      · simp [List.filter_cons, hp, lookupA, hk, ih]
      · simp only [Bool.not_eq_true] at hp
        simp [List.filter_cons, hp, lookupA, hk, ih]

theorem lookupA_filter_drop {α : Type} (l : List (Nat × α)) (p : Nat × α → Bool)
    (k : Nat) (h : ∀ v : α, p (k, v) = false) :
    lookupA (l.filter p) k = none := by
  apply lookupA_eq_none
  intro kv hkv
  intro hk
  have hmem := (List.mem_filter.mp hkv).2
  have heq : kv = (k, kv.2) := by
    obtain ⟨a, b⟩ := kv
    simp_all
  rw [heq, h kv.2] at hmem
  exact Bool.false_ne_true hmem

theorem keys_sublist_nodup {α : Type} {l l' : List (Nat × α)}
    (hsub : List.Sublist l' l) (h : (l.map Prod.fst).Nodup) :
    (l'.map Prod.fst).Nodup :=
  (hsub.map Prod.fst).nodup h

/-! ### Facts about the record-cloning helpers -/

/-- The tuple the spec's multiset invariant compares: everything of a
step record except its identity. -/
def proj (r : FlowData) : Int × Json × Json × String :=
  (r.cursor, r.payload, r.metadata, r.key)

theorem cursorsOf_reId (l : List FlowData) (fid : Nat) :
    ∀ n, cursorsOf (reId l fid n) = cursorsOf l := by
  induction l with
  | nil => intro n; rfl
  | cons hd tl ih => intro n; simp [reId, cursorsOf] at ih ⊢; exact ih (n + 1)

theorem reId_map_proj (l : List FlowData) (fid : Nat) :
    ∀ n, (reId l fid n).map proj = l.map proj := by
  induction l with
  | nil => intro n; rfl
  | cons hd tl ih => intro n; simp [reId, proj] at ih ⊢; exact ih (n + 1)

theorem mem_reId {l : List FlowData} {fid : Nat} :
    ∀ {n : Nat} {r : FlowData}, r ∈ reId l fid n →
      ∃ r₀ ∈ l, r.cursor = r₀.cursor ∧ r.key = r₀.key ∧ r.payload = r₀.payload ∧
        r.metadata = r₀.metadata ∧ r.flow_id = fid ∧ n ≤ r.id := by
  induction l with
  | nil => intro n r h; simp [reId] at h
  | cons hd tl ih =>
    intro n r h
    rcases List.mem_cons.mp h with h1 | h1
    · exact ⟨hd, List.mem_cons_self _ _, by simp [h1]⟩
    · rcases ih h1 with ⟨r₀, hr₀, hc⟩
      exact ⟨r₀, List.mem_cons_of_mem _ hr₀,
        hc.1, hc.2.1, hc.2.2.1, hc.2.2.2.1, hc.2.2.2.2.1, by omega⟩

theorem mem_reIdSnaps {l : List SnapshotMeta} {fid : Nat} :
    ∀ {n : Nat} {m : SnapshotMeta}, m ∈ reIdSnaps l fid n →
      ∃ m₀ ∈ l, m.cursor = m₀.cursor ∧ m.state_ptr = m₀.state_ptr ∧
        m.metadata = m₀.metadata ∧ m.flow_id = fid ∧ n ≤ m.id := by
  induction l with
  | nil => intro n m h; simp [reIdSnaps] at h
  | cons hd tl ih =>
    intro n m h
    rcases List.mem_cons.mp h with h1 | h1
    · exact ⟨hd, List.mem_cons_self _ _, by simp [h1]⟩
    · rcases ih h1 with ⟨m₀, hm₀, hc⟩
      exact ⟨m₀, List.mem_cons_of_mem _ hm₀,
        hc.1, hc.2.1, hc.2.2.1, hc.2.2.2.1, by omega⟩

theorem reIdSnaps_mem_of_mem {l : List SnapshotMeta} {fid : Nat} :
    ∀ {n : Nat} {m₀ : SnapshotMeta}, m₀ ∈ l →
      ∃ m ∈ reIdSnaps l fid n, m.cursor = m₀.cursor ∧ m.state_ptr = m₀.state_ptr ∧
        m.metadata = m₀.metadata ∧ m.flow_id = fid ∧ n ≤ m.id := by
  induction l with
  | nil => intro n m₀ h; simp at h
  | cons hd tl ih =>
    intro n m₀ h
    rcases List.mem_cons.mp h with h1 | h1
    · subst h1
      exact ⟨{ m₀ with id := n, flow_id := fid }, List.mem_cons_self _ _, by simp⟩
    · rcases @ih (n + 1) m₀ h1 with ⟨m, hm, hc⟩
      exact ⟨m, List.mem_cons_of_mem _ hm, hc.1, hc.2.1, hc.2.2.1, hc.2.2.2.1, by omega⟩

theorem branchMeta_fields (s : Store) (p : Nat) (name status : Option String)
    (k : Int) (md : Json) (b : Nat) :
    (branchMeta s p name status k md b).current_cursor = k ∧
    (branchMeta s p name status k md b).current_version = 0 ∧
    (branchMeta s p name status k md b).parent_flow_id = some p ∧
    (branchMeta s p name status k md b).parent_cursor = some k := by
  unfold branchMeta
  cases lookupA s.flows p <;> simp

theorem orphanFix_frame (fid : Nat) (m : FlowMeta) :
    (orphanFix fid m).current_cursor = m.current_cursor ∧
    (orphanFix fid m).current_version = m.current_version := by
  unfold orphanFix
  split <;> simp

/-! ### Preservation of the store invariant -/

theorem lookupA_none_of_lt {α : Type} {l : List (Nat × α)} {n : Nat}
    (h : ∀ kv ∈ l, kv.1 < n) : lookupA l n = none :=
  lookupA_eq_none (fun kv hkv => Nat.ne_of_lt (h kv hkv))

theorem stepsOf_nextId (s : Store) (h : StoreWF s) : stepsOf s s.nextId = [] := by
  simp [stepsOf, lookupA_none_of_lt h.steps_lt]

theorem wf_empty : StoreWF emptyStore := by
  constructor <;> simp [emptyStore]

theorem wf_create_flow (s : Store) (name status : Option String) (md : Json)
    (h : StoreWF s) : StoreWF (create_flow s name status md).2 := by
  unfold create_flow
  constructor
  · exact keys_insertA _ _ _ h.flows_nodup
  · exact h.steps_nodup
  · intro kv hkv
    rcases mem_insertA hkv with h1 | h1
    · simp [h1]
    · have := h.flows_lt kv h1
      simp only []
      omega
  · intro kv hkv
    have := h.steps_lt kv hkv
    simp only []
    omega
  · exact h.sorted
  · intro kv hkv
    rcases h.bounded kv hkv with ⟨m, hm, hb⟩
    refine ⟨m, ?_, hb⟩
    have hne : kv.1 ≠ s.nextId := Nat.ne_of_lt (h.steps_lt kv hkv)
    simpa [lookupA_insertA_ne _ _ _ _ hne] using hm

/-- Every record of a flow sits at or below the flow's
`current_cursor + 1` (unpacked form of `StoreWF.bounded`). -/
theorem wf_steps_bound {s : Store} (h : StoreWF s) {f : Nat} {m : FlowMeta}
    (hm : lookupA s.flows f = some m) :
    ∀ r ∈ stepsOf s f, r.cursor ≤ m.current_cursor + 1 := by
  intro r hr
  cases hsl : lookupA s.steps f with
  | none => simp [stepsOf, hsl] at hr
  | some l =>
    rcases h.bounded (f, l) (lookupA_mem hsl) with ⟨m₀, hm₀, hb₀⟩
    simp only at hm₀
    rw [hm] at hm₀
    cases hm₀
    simp only [stepsOf, hsl, Option.getD_some] at hr
    exact hb₀ r hr

/-- The cursors of a flow's stored records are weakly sorted
(unpacked form of `StoreWF.sorted`). -/
theorem wf_steps_sorted {s : Store} (h : StoreWF s) (f : Nat) :
    (cursorsOf (stepsOf s f)).Sorted (· ≤ ·) := by
  cases hsl : lookupA s.steps f with
  | none => simp [stepsOf, hsl, cursorsOf, List.Sorted]
  | some l =>
    have := h.sorted (f, l) (lookupA_mem hsl)
    simpa [stepsOf, hsl] using this

theorem wf_persist_data (s : Store) (d : FlowData) (v : Int)
    (h : StoreWF s) : StoreWF (persist_data s d v).2 := by
  unfold persist_data
  cases hm : lookupA s.flows d.flow_id with
  | none => exact h
  | some m =>
    by_cases hv : m.current_version ≠ v
    · simp only [if_pos hv]
      exact h
    · simp only [if_neg hv]
      by_cases hd : dupCheck s d = true
      · simp only [if_pos hd]
        exact h
      · simp only [if_neg hd]
        by_cases hc : d.cursor ≤ m.current_cursor
        · simp only [if_pos hc]
          exact h
        · simp only [if_neg hc]
          have hcur : m.current_cursor + 1 ≤ d.cursor := by omega
          have hkey : d.flow_id < s.nextId :=
            h.flows_lt (d.flow_id, m) (lookupA_mem hm)
          have hbound := wf_steps_bound h hm
          constructor
          · exact keys_insertA _ _ _ h.flows_nodup
          · exact keys_insertA _ _ _ h.steps_nodup
          · intro kv hkv
            rcases mem_insertA hkv with h1 | h1
            · simp [persistApply, h1, hkey]
            · exact h.flows_lt kv h1
          · intro kv hkv
            rcases mem_insertA hkv with h1 | h1
            · simp [persistApply, h1, hkey]
            · exact h.steps_lt kv h1
          · intro kv hkv
            rcases mem_insertA hkv with h1 | h1
            · subst h1
              simp only [cursorsOf, List.map_append, List.map_cons, List.map_nil]
              refine List.pairwise_append.mpr ⟨wf_steps_sorted h d.flow_id, by simp, ?_⟩
              intro a ha b hb
              simp only [List.mem_singleton] at hb
              subst hb
              rcases List.mem_map.mp ha with ⟨r, hr, hrc⟩
              have := hbound r hr
              omega
            · exact h.sorted kv h1
          · intro kv hkv
            rcases mem_insertA hkv with h1 | h1
            · subst h1
              refine ⟨_, lookupA_insertA_self _ _ _, ?_⟩
              intro r hr
              rcases List.mem_append.mp hr with h2 | h2
              · have := hbound r h2
                simp only
                omega
              · simp only [List.mem_singleton] at h2
                subst h2
                simp only
                omega
            · rcases h.bounded kv h1 with ⟨m₀, hm₀, hb₀⟩
              by_cases hfk : kv.1 = d.flow_id
              · rw [hfk, hm] at hm₀
                cases hm₀
                refine ⟨_, by rw [hfk]; exact lookupA_insertA_self _ _ _, ?_⟩
                intro r hr
                have := hb₀ r hr
                simp only
                omega
              · refine ⟨m₀, ?_, hb₀⟩
                show lookupA (insertA s.flows d.flow_id _) kv.1 = some m₀
                rwa [lookupA_insertA_ne _ _ _ _ hfk]

theorem wf_create_branch (s : Store) (p : Nat) (name status : Option String)
    (k : Int) (md : Json) (h : StoreWF s) :
    StoreWF (create_branch s p name status k md).2 := by
  unfold create_branch
  have hfresh_f : lookupA s.flows s.nextId = none := lookupA_none_of_lt h.flows_lt
  have hfresh_s : stepsOf s s.nextId = [] := stepsOf_nextId s h
  have hcopy_le : ∀ r ∈ (stepsOf s p).filter (fun d => decide (d.cursor ≤ k)),
      r.cursor ≤ k := by
    intro r hr
    have := (List.mem_filter.mp hr).2
    simpa using this
  constructor
  · exact keys_insertA _ _ _ h.flows_nodup
  · exact keys_insertA _ _ _ h.steps_nodup
  · intro kv hkv
    rcases mem_insertA hkv with h1 | h1
    · simp only [h1]
      omega
    · have := h.flows_lt kv h1
      simp only
      omega
  · intro kv hkv
    rcases mem_insertA hkv with h1 | h1
    · simp only [h1]
      omega
    · have := h.steps_lt kv h1
      simp only
      omega
  · intro kv hkv
    rcases mem_insertA hkv with h1 | h1
    · subst h1
      simp only [hfresh_s, List.nil_append, cursorsOf, List.map_append,
        List.map_cons, List.map_nil]
      refine List.pairwise_append.mpr ⟨?_, by simp, ?_⟩
      · rw [show (List.map (fun d => d.cursor)
              (reId ((stepsOf s p).filter (fun d => decide (d.cursor ≤ k)))
                s.nextId (s.nextId + 1))) =
              cursorsOf ((stepsOf s p).filter (fun d => decide (d.cursor ≤ k))) from
            cursorsOf_reId _ _ _]
        have hs := wf_steps_sorted h p
        simp only [cursorsOf] at hs ⊢
        exact hs.sublist ((List.filter_sublist _).map (fun d : FlowData => d.cursor))
      · intro a ha b hb
        simp only [List.mem_singleton] at hb
        subst hb
        rcases List.mem_map.mp ha with ⟨r, hr, hrc⟩
        rcases mem_reId hr with ⟨r₀, hr₀, hcur, _⟩
        have := hcopy_le r₀ hr₀
        omega
    · exact h.sorted kv h1
  · intro kv hkv
    rcases mem_insertA hkv with h1 | h1
    · subst h1
      refine ⟨_, lookupA_insertA_self _ _ _, ?_⟩
      intro r hr
      rcases branchMeta_fields s p name status k md s.nextId with ⟨hbc, _⟩
      rw [hbc]
      rw [hfresh_s, List.nil_append] at hr
      rcases List.mem_append.mp hr with h2 | h2
      · rcases mem_reId h2 with ⟨r₀, hr₀, hcur, _⟩
        have := hcopy_le r₀ hr₀
        omega
      · simp only [List.mem_singleton] at h2
        subst h2
        simp
    · rcases h.bounded kv h1 with ⟨m₀, hm₀, hb₀⟩
      have hne : kv.1 ≠ s.nextId := Nat.ne_of_lt (h.steps_lt kv h1)
      refine ⟨m₀, ?_, hb₀⟩
      show lookupA (insertA s.flows s.nextId _) kv.1 = some m₀
      rwa [lookupA_insertA_ne _ _ _ _ hne]

theorem wf_delete_branch (s : Store) (f : Nat) (h : StoreWF s) :
    StoreWF (delete_branch s f).2 := by
  unfold delete_branch
  cases hm : lookupA s.flows f with
  | none => exact h
  | some m =>
    constructor
    · rw [show ((removeA s.flows f).map (fun kv => (kv.1, orphanFix f kv.2))).map Prod.fst
          = (removeA s.flows f).map Prod.fst from by
        rw [List.map_map]; rfl]
      exact keys_sublist_nodup (List.filter_sublist _) h.flows_nodup
    · exact keys_sublist_nodup (List.filter_sublist _) h.steps_nodup
    · intro kv hkv
      rcases List.mem_map.mp hkv with ⟨kv₀, hkv₀, hmap⟩
      have := h.flows_lt kv₀ (mem_removeA.mp hkv₀).1
      simp only [← hmap]
      omega
    · intro kv hkv
      exact h.steps_lt kv (mem_removeA.mp hkv).1
    · intro kv hkv
      exact h.sorted kv (mem_removeA.mp hkv).1
    · intro kv hkv
      have hkv' := mem_removeA.mp hkv
      rcases h.bounded kv hkv'.1 with ⟨m₀, hm₀, hb₀⟩
      refine ⟨orphanFix f m₀, ?_, ?_⟩
      · show lookupA ((removeA s.flows f).map (fun kv => (kv.1, orphanFix f kv.2))) kv.1
          = some (orphanFix f m₀)
        rw [lookupA_map_value, lookupA_removeA_ne _ _ _ hkv'.2, hm₀]
        rfl
      · intro r hr
        rw [(orphanFix_frame f m₀).1]
        exact hb₀ r hr

theorem wf_deleteAll (ids : List Nat) :
    ∀ s : Store, StoreWF s → StoreWF (deleteAll ids s).2 := by
  induction ids with
  | nil => intro s h; exact h
  | cons fid rest ih =>
    intro s h
    unfold deleteAll
    have hwf := wf_delete_branch s fid h
    cases hdb : delete_branch s fid with
    | mk r s' =>
      cases r with
      | ok u =>
        have : s' = (delete_branch s fid).2 := by rw [hdb]
        subst this
        exact ih _ hwf
      | error e =>
        have : s' = (delete_branch s fid).2 := by rw [hdb]
        subst this
        exact hwf

theorem wf_delete_from_step (s : Store) (f : Nat) (k : Int) (h : StoreWF s) :
    StoreWF (delete_from_step s f k).2 := by
  unfold delete_from_step truncSteps
  cases hm : lookupA s.flows f with
  | none => exact h
  | some m =>
    apply wf_deleteAll
    cases hsl : lookupA s.steps f with
    | none => exact h
    | some l =>
      have hkey : f < s.nextId := h.steps_lt (f, l) (lookupA_mem hsl)
      constructor
      · exact h.flows_nodup
      · exact keys_insertA _ _ _ h.steps_nodup
      · exact h.flows_lt
      · intro kv hkv
        rcases mem_insertA hkv with h1 | h1
        · simp [h1, hkey]
        · exact h.steps_lt kv h1
      · intro kv hkv
        rcases mem_insertA hkv with h1 | h1
        · subst h1
          have := h.sorted (f, l) (lookupA_mem hsl)
          simp only [cursorsOf] at this ⊢
          exact this.sublist ((List.filter_sublist _).map (fun d : FlowData => d.cursor))
        · exact h.sorted kv h1
      · intro kv hkv
        rcases mem_insertA hkv with h1 | h1
        · subst h1
          rcases h.bounded (f, l) (lookupA_mem hsl) with ⟨m₀, hm₀, hb₀⟩
          refine ⟨m₀, hm₀, ?_⟩
          intro r hr
          exact hb₀ r (List.mem_filter.mp hr).1
        · exact h.bounded kv h1

/-- Every reachable store state satisfies the store invariant. -/
theorem reachable_wf {s : Store} (h : Reachable s) : StoreWF s := by
  induction h with
  | init => exact wf_empty
  | create_flow s name status md _ ih => exact wf_create_flow s name status md ih
  | persist_data s d v _ ih => exact wf_persist_data s d v ih
  | create_branch s p name status k md _ ih => exact wf_create_branch s p name status k md ih
  | delete_branch s f _ ih => exact wf_delete_branch s f ih
  | delete_from_step s f k _ ih => exact wf_delete_from_step s f k ih

/-! ### Closed form of the child-deletion loop -/

/-- Net orphan effect of deleting every flow in `ids`: a flow whose
parent is among them loses its parent linkage. -/
def orphanAll (ids : List Nat) (m : FlowMeta) : FlowMeta :=
  match m.parent_flow_id with
  | some p => if p ∈ ids then { m with parent_flow_id := none, parent_cursor := none } else m
  | none => m

theorem orphanAll_nil (m : FlowMeta) : orphanAll [] m = m := by
  unfold orphanAll
  cases m.parent_flow_id <;> simp

theorem orphanAll_cons (c : Nat) (rest : List Nat) (m : FlowMeta) :
    orphanAll rest (orphanFix c m) = orphanAll (c :: rest) m := by
  cases hp : m.parent_flow_id with
  | none =>
    have h1 : orphanFix c m = m := by unfold orphanFix; simp [hp]
    rw [h1]
    unfold orphanAll
    rw [hp]
  | some p =>
    by_cases hc : p = c
    · subst hc
      have h1 : orphanFix p m = { m with parent_flow_id := none, parent_cursor := none } := by
        unfold orphanFix
        simp [hp]
      rw [h1]
      unfold orphanAll
      rw [hp]
      simp
    · have h1 : orphanFix c m = m := by
        unfold orphanFix
        rw [hp]
        simp [hc]
      rw [h1]
      unfold orphanAll
      rw [hp]
      simp only [List.mem_cons]
      by_cases hr : p ∈ rest
      · simp [hr]
      · simp [hr, hc]

theorem filter_map_value {α β : Type} (l : List (Nat × α)) (g : α → β)
    (q : Nat → Bool) :
    (l.map (fun kv => (kv.1, g kv.2))).filter (fun kv => q kv.1) =
      (l.filter (fun kv => q kv.1)).map (fun kv => (kv.1, g kv.2)) := by
  induction l with
  | nil => rfl
  | cons hd tl ih =>
    by_cases hq : q hd.1
    · simp [List.filter_cons, hq, ih]
    · simp only [Bool.not_eq_true] at hq
      simp [List.filter_cons, hq, ih]

theorem delete_branch_eq {s : Store} {f : Nat} (h : (lookupA s.flows f).isSome) :
    delete_branch s f =
      (Except.ok (),
       { s with flows := (removeA s.flows f).map (fun kv => (kv.1, orphanFix f kv.2)),
                steps := removeA s.steps f,
                snapshots := s.snapshots.filter (fun kv => kv.2.flow_id != f) }) := by
  unfold delete_branch
  cases hm : lookupA s.flows f with
  | none => rw [hm] at h; simp at h
  | some m => rfl

theorem deleteAll_spec (ids : List Nat) :
    ∀ s : Store, ids.Nodup → (∀ c ∈ ids, (lookupA s.flows c).isSome) →
      deleteAll ids s =
        (Except.ok (),
         { s with
             flows := (s.flows.filter (fun kv => decide (kv.1 ∉ ids))).map
                        (fun kv => (kv.1, orphanAll ids kv.2)),
             steps := s.steps.filter (fun kv => decide (kv.1 ∉ ids)),
             snapshots := s.snapshots.filter (fun kv => decide (kv.2.flow_id ∉ ids)) }) := by
  induction ids with
  | nil =>
    intro s _ _
    unfold deleteAll
    have h1 : ∀ α : Type, ∀ l : List (Nat × α),
        l.filter (fun kv => decide (kv.1 ∉ ([] : List Nat))) = l := by
      intro α l
      apply List.filter_eq_self.mpr
      intro kv _
      simp
    have h3 : s.snapshots.filter (fun kv => decide (kv.2.flow_id ∉ ([] : List Nat)))
        = s.snapshots := by
      apply List.filter_eq_self.mpr
      intro kv _
      simp
    rw [h1, h1, h3]
    have h2 : (s.flows.map (fun kv => (kv.1, orphanAll [] kv.2))) = s.flows := by
      have hpt : ∀ kv ∈ s.flows, (kv.1, orphanAll [] kv.2) = id kv := by
        intro kv _
        rw [orphanAll_nil]
        rfl
      rw [List.map_congr_left hpt, List.map_id]
    rw [h2]
  | cons c rest ih =>
    intro s hnd hpres
    have hc : (lookupA s.flows c).isSome := hpres c (List.mem_cons_self _ _)
    have hcrest : c ∉ rest := (List.nodup_cons.mp hnd).1
    have hrestnd : rest.Nodup := (List.nodup_cons.mp hnd).2
    set s₁ : Store :=
      { s with flows := (removeA s.flows c).map (fun kv => (kv.1, orphanFix c kv.2)),
               steps := removeA s.steps c,
               snapshots := s.snapshots.filter (fun kv => kv.2.flow_id != c) } with hs₁
    have hstep : deleteAll (c :: rest) s = deleteAll rest s₁ := by
      show (match delete_branch s c with
            | (Except.ok _, s') => deleteAll rest s'
            | (Except.error e, s') => (Except.error e, s')) = deleteAll rest s₁
      rw [delete_branch_eq hc]
    rw [hstep]
    have hpres' : ∀ g ∈ rest, (lookupA s₁.flows g).isSome := by
      intro g hg
      have hgc : g ≠ c := fun hh => hcrest (hh ▸ hg)
      have : lookupA s₁.flows g = (lookupA s.flows g).map (orphanFix c) := by
        rw [hs₁]
        show lookupA ((removeA s.flows c).map (fun kv => (kv.1, orphanFix c kv.2))) g
          = (lookupA s.flows g).map (orphanFix c)
        rw [lookupA_map_value, lookupA_removeA_ne _ _ _ hgc]
      rw [this]
      cases hx : lookupA s.flows g with
      | none =>
        have := hpres g (List.mem_cons_of_mem _ hg)
        rw [hx] at this
        simp at this
      | some mm => simp
    rw [ih s₁ hrestnd hpres']
    have hkeyeq : ∀ x : Nat,
        ((x != c) && decide (x ∉ rest)) = decide (x ∉ c :: rest) := by
      intro x
      by_cases h1 : x = c
      · simp [h1]
      · by_cases h2 : x ∈ rest <;> simp [h1, h2]
    simp only [Prod.mk.injEq, Store.mk.injEq, true_and, and_true]
    refine ⟨?_, ?_, ?_⟩
    · show ((s₁.flows.filter (fun kv => decide (kv.1 ∉ rest))).map
          (fun kv => (kv.1, orphanAll rest kv.2))) = _
      rw [hs₁]
      show ((((removeA s.flows c).map (fun kv => (kv.1, orphanFix c kv.2))).filter
          (fun kv => decide (kv.1 ∉ rest))).map (fun kv => (kv.1, orphanAll rest kv.2))) = _
      rw [filter_map_value (removeA s.flows c) (orphanFix c) (fun x => decide (x ∉ rest))]
      rw [List.map_map]
      have hcomp : ((fun kv : Nat × FlowMeta => (kv.1, orphanAll rest kv.2)) ∘
          (fun kv : Nat × FlowMeta => (kv.1, orphanFix c kv.2))) =
          (fun kv : Nat × FlowMeta => (kv.1, orphanAll (c :: rest) kv.2)) := by
        funext kv
        simp [Function.comp, orphanAll_cons]
      rw [hcomp]
      have hflist : ((removeA s.flows c).filter (fun kv => decide (kv.1 ∉ rest))) =
          s.flows.filter (fun kv => decide (kv.1 ∉ c :: rest)) := by
        unfold removeA
        rw [List.filter_filter]
        apply List.filter_congr
        intro kv _
        rw [Bool.and_comm]
        exact hkeyeq kv.1
      rw [hflist]
    · show (s₁.steps.filter (fun kv => decide (kv.1 ∉ rest))) = _
      rw [hs₁]
      show (((s.steps.filter (fun kv => kv.1 != c)).filter
          (fun kv => decide (kv.1 ∉ rest)))) = _
      rw [List.filter_filter]
      apply List.filter_congr
      intro kv _
      rw [Bool.and_comm]
      exact hkeyeq kv.1
    · show (s₁.snapshots.filter (fun kv => decide (kv.2.flow_id ∉ rest))) = _
      rw [hs₁]
      show (((s.snapshots.filter (fun kv => kv.2.flow_id != c)).filter
          (fun kv => decide (kv.2.flow_id ∉ rest)))) = _
      rw [List.filter_filter]
      apply List.filter_congr
      intro kv _
      rw [Bool.and_comm]
      exact hkeyeq kv.2.flow_id

/-! ### Facts about `childrenToDelete` and `truncSteps` -/

theorem lookupA_eq_of_mem_nodup {α : Type} {l : List (Nat × α)} {k : Nat} {v : α}
    (hnd : (l.map Prod.fst).Nodup) (h : (k, v) ∈ l) : lookupA l k = some v := by
  induction l with
  | nil => simp at h
  | cons hd tl ih =>
    obtain ⟨a, b⟩ := hd
    simp only [List.map_cons, List.nodup_cons] at hnd
    rcases List.mem_cons.mp h with h1 | h1
    · have ha : a = k := ((Prod.mk.injEq _ _ _ _).mp h1.symm).1
      have hb : b = v := ((Prod.mk.injEq _ _ _ _).mp h1.symm).2
      simp [lookupA, ha, hb]
    · have hak : a ≠ k := by
        intro hh
        subst hh
        exact hnd.1 (List.mem_map.mpr ⟨(a, v), h1, rfl⟩)
      simp only [lookupA, hak, if_false]
      exact ih hnd.2 h1

theorem childCond_iff (f : Nat) (k : Int) (m : FlowMeta) :
    childCond f k m = true ↔
      m.parent_flow_id = some f ∧ ∃ pc, m.parent_cursor = some pc ∧ k ≤ pc := by
  unfold childCond
  cases hp : m.parent_flow_id with
  | none => simp
  | some p =>
    cases hpc : m.parent_cursor with
    | none => simp
    | some pc =>
      constructor
      · intro h
        simp only [decide_eq_true_eq] at h
        exact ⟨by rw [h.1], pc, rfl, h.2⟩
      · rintro ⟨h1, pc', hpc', h2⟩
        have hppf : p = f := Option.some.inj h1
        have hpcc : pc = pc' := Option.some.inj hpc'
        subst hppf
        subst hpcc
        simp [h2]

theorem mem_childrenToDelete {s : Store} {f : Nat} {k : Int} {c : Nat} :
    c ∈ childrenToDelete s f k ↔
      ∃ mm, (c, mm) ∈ s.flows ∧ childCond f k mm = true := by
  unfold childrenToDelete
  rw [List.mem_filterMap]
  constructor
  · intro ⟨kv, hkv, hif⟩
    by_cases hcond : childCond f k kv.2
    · rw [if_pos hcond] at hif
      cases Option.some.inj hif
      exact ⟨kv.2, by simpa using hkv, hcond⟩
    · rw [if_neg hcond] at hif
      cases hif
  · intro ⟨mm, hmm, hcond⟩
    exact ⟨(c, mm), hmm, by rw [if_pos hcond]⟩

theorem childrenToDelete_sublist (s : Store) (f : Nat) (k : Int) :
    List.Sublist (childrenToDelete s f k) (s.flows.map Prod.fst) := by
  unfold childrenToDelete
  induction s.flows with
  | nil => simp
  | cons hd tl ih =>
    by_cases hcond : childCond f k hd.2
    · simpa [List.filterMap_cons, hcond] using List.Sublist.cons₂ hd.1 ih
    · simpa [List.filterMap_cons, hcond] using List.Sublist.cons hd.1 ih

theorem childrenToDelete_nodup {s : Store} (h : StoreWF s) (f : Nat) (k : Int) :
    (childrenToDelete s f k).Nodup :=
  (childrenToDelete_sublist s f k).nodup h.flows_nodup

theorem truncSteps_flows (s : Store) (f : Nat) (k : Int) :
    (truncSteps s f k).flows = s.flows := by
  unfold truncSteps
  cases lookupA s.steps f <;> rfl

theorem truncSteps_snapshots (s : Store) (f : Nat) (k : Int) :
    (truncSteps s f k).snapshots = s.snapshots := by
  unfold truncSteps
  cases lookupA s.steps f <;> rfl

theorem truncSteps_nextId (s : Store) (f : Nat) (k : Int) :
    (truncSteps s f k).nextId = s.nextId := by
  unfold truncSteps
  cases lookupA s.steps f <;> rfl

theorem childrenToDelete_truncSteps (s : Store) (f g : Nat) (k k' : Int) :
    childrenToDelete (truncSteps s g k') f k = childrenToDelete s f k := by
  unfold childrenToDelete
  rw [truncSteps_flows]

theorem stepsOf_truncSteps_self (s : Store) (f : Nat) (k : Int) :
    stepsOf (truncSteps s f k) f = (stepsOf s f).filter (fun d => d.cursor < k) := by
  unfold truncSteps
  cases hsl : lookupA s.steps f with
  | none => simp [stepsOf, hsl]
  | some l => simp [stepsOf, hsl, lookupA_insertA_self]

theorem stepsOf_truncSteps_other (s : Store) (f g : Nat) (k : Int) (h : g ≠ f) :
    stepsOf (truncSteps s f k) g = stepsOf s g := by
  unfold truncSteps
  cases hsl : lookupA s.steps f with
  | none => rfl
  | some l => simp [stepsOf, lookupA_insertA_ne _ _ _ _ h]

/-- Unfolding lemma for `persist_data` when the flow exists. -/
theorem persist_data_some (s : Store) (d : FlowData) (v : Int) (m : FlowMeta)
    (hm : lookupA s.flows d.flow_id = some m) :
    persist_data s d v =
      if m.current_version ≠ v then (Except.ok PersistResult.conflict, s)
      else if dupCheck s d then (Except.ok (PersistResult.ok m.current_version), s)
      else if d.cursor ≤ m.current_cursor then
        (Except.error (FlowError.conflict "cursor not greater than current"), s)
      else (Except.ok (PersistResult.ok (satAdd1 m.current_version)),
            persistApply s d m) := by
  unfold persist_data
  rw [hm]

/-- Unfolding lemma for `persist_data` when the flow is missing. -/
theorem persist_data_none (s : Store) (d : FlowData) (v : Int)
    (hm : lookupA s.flows d.flow_id = none) :
    persist_data s d v = (Except.error (FlowError.notFound "flow"), s) := by
  unfold persist_data
  rw [hm]

/-! ### Concrete demonstration stores (used by witnesses) -/

/-- A store with one freshly created flow (id 0). -/
def demoFlowStore : Store := (create_flow emptyStore none none Json.emptyObj).2

/-- The metadata of flow 0 in `demoFlowStore`. -/
def demoMeta0 : FlowMeta :=
  { id := 0, name := none, status := none, created_by := none,
    current_cursor := 0, current_version := 0,
    parent_flow_id := none, parent_cursor := none, metadata := Json.emptyObj }

/-- A step record for flow 0 at cursor 1 carrying a command id. -/
def demoRecord : FlowData :=
  { id := 100, flow_id := 0, cursor := 1, key := "Step",
    payload := Json.lit "x", metadata := Json.emptyObj, command_id := some 7 }

/-- State `demoFlowStore` after appending `demoRecord` at expected version 0. -/
def demoStore2 : Store := (persist_data demoFlowStore demoRecord 0).2

/-- The metadata of flow 0 in `demoStore2`. -/
def demoMeta2 : FlowMeta :=
  { id := 0, name := none, status := none, created_by := none,
    current_cursor := 1, current_version := 1,
    parent_flow_id := none, parent_cursor := none, metadata := Json.emptyObj }

/-- State `demoFlowStore` after branching flow 0 at cursor 0 (branch id 1). -/
def demoBranchStore : Store :=
  (create_branch demoFlowStore 0 none none 0 Json.emptyObj).2

/-- A record appended to the branch (flow 1) at cursor 1 — the same
cursor as its `BranchCreated` marker. -/
def demoBranchRec : FlowData :=
  { id := 50, flow_id := 1, cursor := 1, key := "Step",
    payload := Json.lit "y", metadata := Json.emptyObj, command_id := none }

/-- State `demoBranchStore` after appending `demoBranchRec` at version 0. -/
def demoC8Store : Store := (persist_data demoBranchStore demoBranchRec 0).2

theorem demoFlowStore_reachable : Reachable demoFlowStore :=
  Reachable.create_flow emptyStore none none Json.emptyObj Reachable.init

theorem demoStore2_reachable : Reachable demoStore2 :=
  Reachable.persist_data demoFlowStore demoRecord 0 demoFlowStore_reachable

theorem demoBranchStore_reachable : Reachable demoBranchStore :=
  Reachable.create_branch demoFlowStore 0 none none 0 Json.emptyObj
    demoFlowStore_reachable

theorem demoC8Store_reachable : Reachable demoC8Store :=
  Reachable.persist_data demoBranchStore demoBranchRec 0 demoBranchStore_reachable

/-! ### Claim C7 — `count_steps` -/

/-- C7: `count_steps(f)` returns −1 exactly when the flow does not
exist (and always returns a value, never an error — the model function
is total); when the flow exists it returns the number of the flow's
records with `cursor ≤ current_cursor`, so the `BranchCreated` marker
one past a branch's cursor is not counted. -/
theorem count_steps_spec (s : Store) (f : Nat) :
    (count_steps s f = -1 ↔ lookupA s.flows f = none) ∧
    (∀ m, lookupA s.flows f = some m →
      count_steps s f =
        ((stepsOf s f).filter (fun d => d.cursor ≤ m.current_cursor)).length) := by
  have hsome : ∀ m, lookupA s.flows f = some m →
      count_steps s f =
        ((stepsOf s f).filter (fun d => d.cursor ≤ m.current_cursor)).length := by
    intro m hm
    unfold count_steps
    rw [hm]
  refine ⟨⟨?_, ?_⟩, hsome⟩
  · intro h
    cases hm : lookupA s.flows f with
    | none => rfl
    | some m =>
      exfalso
      rw [hsome m hm] at h
      omega
  · intro h
    unfold count_steps
    rw [h]

/-- Witness for C7 at a concrete input: in the branch store the child
flow (id 1) holds only the `BranchCreated` marker at cursor 1 while its
`current_cursor` is 0, so zero steps are counted; a random id is
reported as −1. -/
theorem count_steps_spec_witness :
    count_steps demoBranchStore 1 = 0 ∧ count_steps demoBranchStore 77 = -1 := by
  constructor
  · have h := (count_steps_spec demoBranchStore 1).2
      { id := 1, name := none, status := none, created_by := none,
        current_cursor := 0, current_version := 0,
        parent_flow_id := some 0, parent_cursor := some 0,
        metadata := Json.emptyObj } (by decide)
    rw [h]
    decide
  · exact (count_steps_spec demoBranchStore 77).1.mpr (by decide)

/-! ### Claim C1 — successful `persist_data` -/

/-- C1 counterexample: replaying `demoRecord` (same `command_id`) with
the matching expected version 1 succeeds with `new_version = 1`, not
`1 + 1`, and the record's cursor is not strictly greater than the
flow's `current_cursor` before the call — refuting the claim that every
`Ok`-returning `persist_data(r, v)` has `new_version = v + 1` and
`r.cursor > current_cursor`. -/
theorem persist_replay_counterexample :
    (persist_data demoStore2 demoRecord 1).1 =
      Except.ok (PersistResult.ok 1) ∧
    ¬ ((1 : Int) = 1 + 1) ∧
    lookupA demoStore2.flows demoRecord.flow_id = some demoMeta2 ∧
    ¬ (demoMeta2.current_cursor < demoRecord.cursor) := by
  refine ⟨by rfl, by decide, by decide, by decide⟩

/-- C1 (amended): for every successful `persist_data(r, v)` that
actually inserts (no existing record of the flow shares `r.command_id`
— idempotent replays instead return `Ok{new_version = v}` with the
store unchanged): the returned version is `v + 1` saturated at
`i64::MAX`, the flow's `current_cursor` afterwards equals `r.cursor`,
and `r.cursor` is strictly greater than the previous cursor. -/
theorem persist_insert_advances_version_and_cursor
    (s : Store) (d : FlowData) (v v' : Int) (s' : Store) (m : FlowMeta)
    (hm : lookupA s.flows d.flow_id = some m)
    (hnorep : dupCheck s d = false)
    (h : persist_data s d v = (Except.ok (PersistResult.ok v'), s')) :
    v' = min (v + 1) i64Max ∧
    m.current_cursor < d.cursor ∧
    ∃ m', lookupA s'.flows d.flow_id = some m' ∧ m'.current_cursor = d.cursor := by
  rw [persist_data_some s d v m hm] at h
  by_cases hv : m.current_version ≠ v
  · rw [if_pos hv] at h
    simp at h
  · rw [if_neg hv] at h
    rw [hnorep] at h
    simp only [Bool.false_eq_true, if_false] at h
    by_cases hc : d.cursor ≤ m.current_cursor
    · rw [if_pos hc] at h
      simp at h
    · rw [if_neg hc] at h
      have h1 := congrArg Prod.fst h
      have h2 := congrArg Prod.snd h
      simp only at h1 h2
      have hvv : m.current_version = v := not_ne_iff.mp hv
      have hv' : v' = satAdd1 m.current_version := by
        cases h1'' : (Except.ok (PersistResult.ok (satAdd1 m.current_version)) :
            Except FlowError PersistResult) with
        | _ => exact (PersistResult.ok.inj (Except.ok.inj h1)).symm
      refine ⟨by rw [hv', hvv]; rfl, by omega, ?_⟩
      refine ⟨{ m with current_version := satAdd1 m.current_version,
                       current_cursor := d.cursor }, ?_, rfl⟩
      rw [← h2]
      show lookupA (insertA s.flows d.flow_id _) d.flow_id = some _
      exact lookupA_insertA_self _ _ _

/-- Witness for the amended C1: appending `demoRecord` to the fresh
flow (expected version 0) yields version Ok 1 = min (0+1) i64Max and
advances the cursor from 0 to 1. -/
theorem persist_insert_advances_witness :
    (1 : Int) = min ((0 : Int) + 1) i64Max ∧
    demoMeta0.current_cursor < demoRecord.cursor ∧
    ∃ m', lookupA demoStore2.flows demoRecord.flow_id = some m' ∧
      m'.current_cursor = demoRecord.cursor := by
  have h := persist_insert_advances_version_and_cursor demoFlowStore demoRecord 0 1
    demoStore2 demoMeta0 (by decide) (by decide) (by rfl)
  exact ⟨h.1, h.2.1, h.2.2⟩

/-! ### Claim C3 — idempotent replay -/

/-- C3: when the record's `command_id` matches one already stored for
the flow and the expected version matches `current_version`,
`persist_data` returns `Ok{new_version = current_version}` and leaves
the store exactly unchanged; consequently issuing the same record
(same `command_id`) a second time — at the version returned by the
first call — returns the same result and leaves the store in the state
after the first call. -/
theorem persist_idempotent_replay :
    (∀ (s : Store) (d : FlowData) (m : FlowMeta) (c : Nat),
        d.command_id = some c →
        (∃ r ∈ stepsOf s d.flow_id, r.command_id = some c) →
        lookupA s.flows d.flow_id = some m →
        persist_data s d m.current_version =
          (Except.ok (PersistResult.ok m.current_version), s)) ∧
    (∀ (s : Store) (d : FlowData) (v nv : Int) (s₁ : Store) (c : Nat),
        d.command_id = some c →
        persist_data s d v = (Except.ok (PersistResult.ok nv), s₁) →
        persist_data s₁ d nv = (Except.ok (PersistResult.ok nv), s₁)) := by
  have hdup : ∀ (s : Store) (d : FlowData) (c : Nat), d.command_id = some c →
      (∃ r ∈ stepsOf s d.flow_id, r.command_id = some c) → dupCheck s d = true := by
    intro s d c hc ⟨r, hr, hrc⟩
    unfold dupCheck
    rw [hc]
    exact List.any_eq_true.mpr ⟨r, hr, by simp [hrc]⟩
  have hreplay : ∀ (s : Store) (d : FlowData) (m : FlowMeta),
      lookupA s.flows d.flow_id = some m → dupCheck s d = true →
      persist_data s d m.current_version =
        (Except.ok (PersistResult.ok m.current_version), s) := by
    intro s d m hm hdc
    rw [persist_data_some s d m.current_version m hm]
    rw [if_neg (show ¬ m.current_version ≠ m.current_version from by simp)]
    rw [hdc]
    simp
  constructor
  · intro s d m c hc hex hm
    exact hreplay s d m hm (hdup s d c hc hex)
  · intro s d v nv s₁ c hc h
    cases hm : lookupA s.flows d.flow_id with
    | none =>
      rw [persist_data_none s d v hm] at h
      simp at h
    | some m =>
      rw [persist_data_some s d v m hm] at h
      by_cases hv : m.current_version ≠ v
      · rw [if_pos hv] at h
        simp at h
      · rw [if_neg hv] at h
        by_cases hd : dupCheck s d = true
        · rw [if_pos hd] at h
          have h1 := congrArg Prod.fst h
          have h2 := congrArg Prod.snd h
          simp only at h1 h2
          have hnv : nv = m.current_version :=
            (PersistResult.ok.inj (Except.ok.inj h1)).symm
          subst h2
          rw [hnv]
          exact hreplay s d m hm hd
        · rw [if_neg hd] at h
          by_cases hcu : d.cursor ≤ m.current_cursor
          · rw [if_pos hcu] at h
            simp at h
          · rw [if_neg hcu] at h
            have h1 := congrArg Prod.fst h
            have h2 := congrArg Prod.snd h
            simp only at h1 h2
            have hnv : nv = satAdd1 m.current_version :=
              (PersistResult.ok.inj (Except.ok.inj h1)).symm
            subst h2
            have hm' : lookupA (persistApply s d m).flows d.flow_id =
                some { m with current_version := satAdd1 m.current_version,
                              current_cursor := d.cursor } := by
              show lookupA (insertA s.flows d.flow_id _) d.flow_id = some _
              exact lookupA_insertA_self _ _ _
            have hdc' : dupCheck (persistApply s d m) d = true := by
              unfold dupCheck
              rw [hc]
              refine List.any_eq_true.mpr ⟨d, ?_, by simp [hc]⟩
              show d ∈ stepsOf (persistApply s d m) d.flow_id
              show d ∈ (lookupA (insertA s.steps d.flow_id
                (stepsOf s d.flow_id ++ [d])) d.flow_id).getD []
              rw [lookupA_insertA_self]
              simp
            have := hreplay (persistApply s d m) d
              { m with current_version := satAdd1 m.current_version,
                       current_cursor := d.cursor } hm' hdc'
            simpa [hnv] using this

/-- Witness for C3: replaying `demoRecord` against `demoStore2` (where
it is already stored, `current_version = 1`) returns `Ok 1` and the
unchanged store. -/
theorem persist_idempotent_replay_witness :
    persist_data demoStore2 demoRecord 1 =
      (Except.ok (PersistResult.ok 1), demoStore2) := by
  have h := persist_idempotent_replay.1 demoStore2 demoRecord demoMeta2 7
    (by decide) ⟨demoRecord, by decide, by decide⟩ (by decide)
  exact h

/-! ### Claim C4 — `delete_branch` orphans children -/

/-- C4: after a successful `delete_branch(p)`, `p` no longer exists,
and every (distinct) flow `c` that had `parent_flow_id = p` still
exists with both parent fields nulled and all other metadata intact,
while `c`'s own step records and snapshots are untouched. -/
theorem delete_branch_orphans_children
    (s : Store) (p c : Nat) (mc : FlowMeta) (s' : Store)
    (hdel : delete_branch s p = (Except.ok (), s'))
    (hc : lookupA s.flows c = some mc)
    (hpar : mc.parent_flow_id = some p)
    (hne : c ≠ p) :
    branch_exists s' p = false ∧
    branch_exists s' c = true ∧
    lookupA s'.flows c =
      some { mc with parent_flow_id := none, parent_cursor := none } ∧
    lookupA s'.steps c = lookupA s.steps c ∧
    s'.snapshots.filter (fun kv => kv.2.flow_id == c) =
      s.snapshots.filter (fun kv => kv.2.flow_id == c) := by
  have hp : (lookupA s.flows p).isSome := by
    cases hm : lookupA s.flows p with
    | none =>
      unfold delete_branch at hdel
      rw [hm] at hdel
      simp at hdel
    | some _ => simp
  rw [delete_branch_eq hp] at hdel
  have hs' := (Prod.mk.injEq _ _ _ _).mp hdel
  rw [← hs'.2]
  have hlc : lookupA ((removeA s.flows p).map (fun kv => (kv.1, orphanFix p kv.2))) c
      = some (orphanFix p mc) := by
    rw [lookupA_map_value, lookupA_removeA_ne _ _ _ hne, hc]
    rfl
  have hfix : orphanFix p mc = { mc with parent_flow_id := none, parent_cursor := none } := by
    unfold orphanFix
    rw [if_pos hpar]
  refine ⟨?_, ?_, ?_, ?_, ?_⟩
  · show (lookupA ((removeA s.flows p).map (fun kv => (kv.1, orphanFix p kv.2))) p).isSome
      = false
    rw [lookupA_map_value, lookupA_removeA_self]
    rfl
  · show (lookupA ((removeA s.flows p).map (fun kv => (kv.1, orphanFix p kv.2))) c).isSome
      = true
    rw [hlc]
    rfl
  · show lookupA ((removeA s.flows p).map (fun kv => (kv.1, orphanFix p kv.2))) c = some _
    rw [hlc, hfix]
  · show lookupA (removeA s.steps p) c = lookupA s.steps c
    exact lookupA_removeA_ne _ _ _ hne
  · show ((s.snapshots.filter (fun kv => kv.2.flow_id != p)).filter
        (fun kv => kv.2.flow_id == c)) = s.snapshots.filter (fun kv => kv.2.flow_id == c)
    rw [List.filter_filter]
    apply List.filter_congr
    intro kv _
    by_cases hkc : kv.2.flow_id = c
    · have hnp : kv.2.flow_id ≠ p := by rw [hkc]; exact hne
      have h1 : (kv.2.flow_id != p) = true := by simp [hnp]
      have h2 : (kv.2.flow_id == c) = true := by simp [hkc]
      rw [h1, h2]
      rfl
    · have h2 : (kv.2.flow_id == c) = false := by simp [hkc]
      rw [h2]
      simp

/-- Witness for C4: deleting the parent flow 0 in the branch store
leaves the child flow 1 in place, orphaned. -/
theorem delete_branch_orphans_children_witness :
    branch_exists (delete_branch demoBranchStore 0).2 0 = false ∧
    branch_exists (delete_branch demoBranchStore 0).2 1 = true ∧
    lookupA (delete_branch demoBranchStore 0).2.flows 1 =
      some { id := 1, name := none, status := none, created_by := none,
             current_cursor := 0, current_version := 0,
             parent_flow_id := none, parent_cursor := none,
             metadata := Json.emptyObj } ∧
    lookupA (delete_branch demoBranchStore 0).2.steps 1 =
      lookupA demoBranchStore.steps 1 ∧
    (delete_branch demoBranchStore 0).2.snapshots.filter
        (fun kv => kv.2.flow_id == 1) =
      demoBranchStore.snapshots.filter (fun kv => kv.2.flow_id == 1) := by
  have h := delete_branch_orphans_children demoBranchStore 0 1
    { id := 1, name := none, status := none, created_by := none,
      current_cursor := 0, current_version := 0,
      parent_flow_id := some 0, parent_cursor := some 0,
      metadata := Json.emptyObj }
    (delete_branch demoBranchStore 0).2 (by rfl) (by decide) (by decide) (by decide)
  exact h

/-! ### Claim C2 — `create_branch` materialization -/

/-- C2: for `create_branch(p, k, _)` returning the new flow `b` (on a
well-formed store): the `(cursor, payload, metadata, key)` multiset of
`b`'s records with `cursor ≤ k` equals that of `p`'s records with
`cursor ≤ k`; `b` has exactly one record at cursor `k + 1`, and every
such record is the `BranchCreated` marker with payload
`{ "parent": p }`; and `b`'s metadata has `current_cursor = k`,
`current_version = 0`, `parent_flow_id = p`, `parent_cursor = k`. -/
theorem create_branch_spec (s : Store) (p : Nat) (name status : Option String)
    (k : Int) (md : Json) (b : Nat) (s' : Store)
    (hwf : StoreWF s)
    (hcb : create_branch s p name status k md = (b, s')) :
    (((stepsOf s' b).filter (fun r => r.cursor ≤ k)).map proj).Perm
        (((stepsOf s p).filter (fun r => r.cursor ≤ k)).map proj) ∧
    (stepsOf s' b).countP (fun r => r.cursor = k + 1) = 1 ∧
    (∀ r ∈ stepsOf s' b, r.cursor = k + 1 →
        r.key = "BranchCreated" ∧ r.payload = Json.parentObj p) ∧
    (∃ mb, lookupA s'.flows b = some mb ∧ mb.current_cursor = k ∧
        mb.current_version = 0 ∧ mb.parent_flow_id = some p ∧
        mb.parent_cursor = some k) := by
  have hb : b = s.nextId := ((Prod.mk.injEq _ _ _ _).mp hcb.symm).1
  have hs' : s' = (create_branch s p name status k md).2 := by rw [hcb]
  subst hb
  subst hs'
  have hfresh : stepsOf s s.nextId = [] := stepsOf_nextId s hwf
  set copiedSrc := (stepsOf s p).filter (fun d => d.cursor ≤ k) with hsrc
  set copied := reId copiedSrc s.nextId (s.nextId + 1) with hcopied
  set bc : FlowData :=
    { id := s.nextId + 1 + copiedSrc.length, flow_id := s.nextId, cursor := k + 1,
      key := "BranchCreated", payload := Json.parentObj p,
      metadata := Json.emptyObj, command_id := none } with hbc
  have hsteps : stepsOf (create_branch s p name status k md).2 s.nextId =
      copied ++ [bc] := by
    show (lookupA (insertA s.steps s.nextId (stepsOf s s.nextId ++ copied ++ [bc]))
        s.nextId).getD [] = copied ++ [bc]
    rw [lookupA_insertA_self]
    rw [hfresh]
    rfl
  have hcopied_le : ∀ r ∈ copied, r.cursor ≤ k := by
    intro r hr
    rcases mem_reId hr with ⟨r₀, hr₀, hcur, _⟩
    have := (List.mem_filter.mp hr₀).2
    rw [hcur]
    simpa using this
  refine ⟨?_, ?_, ?_, ?_⟩
  · rw [hsteps]
    have hfa : (copied ++ [bc]).filter (fun r => decide (r.cursor ≤ k)) = copied := by
      rw [List.filter_append]
      have h1 : copied.filter (fun r => decide (r.cursor ≤ k)) = copied :=
        List.filter_eq_self.mpr (fun r hr => by simpa using hcopied_le r hr)
      have h2 : [bc].filter (fun r => decide (r.cursor ≤ k)) = [] := by
        simp only [List.filter_cons, List.filter_nil]
        rw [if_neg (by simp [hbc])]
      rw [h1, h2]
      simp
    rw [hfa]
    rw [hcopied, reId_map_proj]
  · rw [hsteps]
    rw [List.countP_append]
    have h1 : copied.countP (fun r => decide (r.cursor = k + 1)) = 0 := by
      apply List.countP_eq_zero.mpr
      intro r hr
      have := hcopied_le r hr
      simp only [decide_eq_true_eq]
      omega
    have h2 : [bc].countP (fun r => decide (r.cursor = k + 1)) = 1 := by
      simp [List.countP_cons, hbc]
    rw [h1, h2]
  · rw [hsteps]
    intro r hr hrk
    rcases List.mem_append.mp hr with h1 | h1
    · have := hcopied_le r h1
      omega
    · simp only [List.mem_singleton] at h1
      subst h1
      exact ⟨rfl, rfl⟩
  · refine ⟨branchMeta s p name status k md s.nextId, ?_, ?_⟩
    · show lookupA (insertA s.flows s.nextId _) s.nextId = some _
      exact lookupA_insertA_self _ _ _
    · exact branchMeta_fields s p name status k md s.nextId

/-- Witness for C2: branching `demoStore2` (flow 0 with one record at
cursor 1) at cursor 1 produces flow 1 with exactly one record at
cursor 2, and branch metadata `current_cursor = 1`,
`current_version = 0`, parent fields set. -/
theorem create_branch_spec_witness :
    (stepsOf (create_branch demoStore2 0 none none 1 Json.emptyObj).2 1).countP
        (fun r => r.cursor = 1 + 1) = 1 ∧
    (∃ mb, lookupA (create_branch demoStore2 0 none none 1 Json.emptyObj).2.flows 1
        = some mb ∧ mb.current_cursor = 1 ∧ mb.current_version = 0 ∧
        mb.parent_flow_id = some 0 ∧ mb.parent_cursor = some 1) := by
  have h := create_branch_spec demoStore2 0 none none 1 Json.emptyObj 1
    (create_branch demoStore2 0 none none 1 Json.emptyObj).2
    (reachable_wf demoStore2_reachable) (by rfl)
  exact ⟨h.2.1, h.2.2.2⟩

/-! ### Claim C8 — ordering of `read_data` on reachable states -/

/-- C8 counterexample: a reachable state in which `read_data` is not
strictly sorted.  Branching flow 0 at cursor 0 puts the `BranchCreated`
marker at cursor 1 while the branch's `current_cursor` stays 0, so a
subsequent append at cursor 1 is accepted and duplicates cursor 1:
`read_data(1, 0)` returns cursors `[1, 1]`. -/
theorem read_data_not_strictly_sorted :
    Reachable demoC8Store ∧
    cursorsOf (read_data demoC8Store 1 0) = [1, 1] ∧
    ¬ (cursorsOf (read_data demoC8Store 1 0)).Sorted (· < ·) := by
  refine ⟨demoC8Store_reachable, by decide, by decide⟩

/-- C8 (amended): in every store state reachable by any sequence of
`create_flow`, `persist_data`, `create_branch`, `delete_branch` and
`delete_from_step`, `read_data(f, c)` returns exactly the records of
flow `f` with `cursor > c`, in weakly ascending (non-decreasing) cursor
order — strict ascent can fail only at the `BranchCreated` marker
cursor, as the counterexample shows. -/
theorem read_data_filter_and_weakly_sorted (s : Store) (h : Reachable s)
    (f : Nat) (c : Int) :
    read_data s f c = (stepsOf s f).filter (fun d => c < d.cursor) ∧
    (cursorsOf (read_data s f c)).Sorted (· ≤ ·) := by
  refine ⟨rfl, ?_⟩
  have hw := reachable_wf h
  have hs := wf_steps_sorted hw f
  show (cursorsOf ((stepsOf s f).filter (fun d => c < d.cursor))).Sorted (· ≤ ·)
  simp only [cursorsOf] at hs ⊢
  exact hs.sublist ((List.filter_sublist _).map (fun d : FlowData => d.cursor))

/-- Witness for the amended C8 at the counterexample store: the
returned records are those with cursor > 0, weakly sorted. -/
theorem read_data_weakly_sorted_witness :
    read_data demoC8Store 1 0 =
      (stepsOf demoC8Store 1).filter (fun d => 0 < d.cursor) ∧
    (cursorsOf (read_data demoC8Store 1 0)).Sorted (· ≤ ·) :=
  read_data_filter_and_weakly_sorted demoC8Store demoC8Store_reachable 1 0

/-! ### Claims C5 and C10 — `delete_from_step` -/

/-- Closed form of `delete_from_step` on a well-formed store with an
existing target flow: it succeeds, truncates the flow's records at
`from_cursor`, removes exactly the qualifying children, and applies the
orphan fix of each deleted child to the surviving flows. -/
theorem delete_from_step_eq (s : Store) (f : Nat) (k : Int)
    (hwf : StoreWF s) (hf : (lookupA s.flows f).isSome) :
    delete_from_step s f k =
      (Except.ok (),
       { flows := (s.flows.filter
                     (fun kv => decide (kv.1 ∉ childrenToDelete s f k))).map
                    (fun kv => (kv.1, orphanAll (childrenToDelete s f k) kv.2)),
         steps := (truncSteps s f k).steps.filter
                    (fun kv => decide (kv.1 ∉ childrenToDelete s f k)),
         snapshots := s.snapshots.filter
                        (fun kv => decide (kv.2.flow_id ∉ childrenToDelete s f k)),
         nextId := s.nextId }) := by
  obtain ⟨m, hm⟩ := Option.isSome_iff_exists.mp hf
  unfold delete_from_step
  rw [hm]
  show deleteAll (childrenToDelete (truncSteps s f k) f k) (truncSteps s f k) = _
  rw [childrenToDelete_truncSteps]
  have hnd : (childrenToDelete s f k).Nodup := childrenToDelete_nodup hwf f k
  have hpres : ∀ c ∈ childrenToDelete s f k,
      (lookupA (truncSteps s f k).flows c).isSome := by
    intro c hc
    rcases mem_childrenToDelete.mp hc with ⟨mm, hmm, _⟩
    rw [truncSteps_flows]
    exact lookupA_isSome_of_mem hmm
  rw [deleteAll_spec (childrenToDelete s f k) (truncSteps s f k) hnd hpres]
  rw [Prod.mk.injEq]
  refine ⟨rfl, ?_⟩
  rw [Store.mk.injEq]
  exact ⟨by rw [truncSteps_flows], rfl, by rw [truncSteps_snapshots],
    by rw [truncSteps_nextId]⟩

/-- The truncation target itself is never in the children-to-delete
list when its own metadata does not name it as its own parent. -/
theorem self_not_childToDelete {s : Store} {f : Nat} {k : Int} {m : FlowMeta}
    (hwf : StoreWF s) (hm : lookupA s.flows f = some m)
    (hself : m.parent_flow_id ≠ some f) :
    f ∉ childrenToDelete s f k := by
  intro hmem
  rcases mem_childrenToDelete.mp hmem with ⟨mm, hmm, hcond⟩
  have : lookupA s.flows f = some mm := lookupA_eq_of_mem_nodup hwf.flows_nodup hmm
  rw [hm] at this
  cases this
  exact hself ((childCond_iff f k m).mp hcond).1

/-- C5: on a well-formed store, `delete_from_step(f, k)` succeeds,
deletes exactly `f`'s step records with `cursor ≥ k` (the survivors are
precisely those with `cursor < k`), deletes exactly the children whose
`parent_cursor ≥ k` (children forked before `k` survive), and leaves
`f`'s metadata — in particular `current_cursor` and `current_version` —
bit-for-bit unchanged.  The two side hypotheses rule out degenerate
parent cycles (a flow listed as its own parent or as a child of one of
its own deleted children), which branching can never produce. -/
theorem delete_from_step_spec (s : Store) (f : Nat) (k : Int) (m : FlowMeta)
    (hwf : StoreWF s)
    (hm : lookupA s.flows f = some m)
    (hself : m.parent_flow_id ≠ some f)
    (hpar : ∀ c ∈ childrenToDelete s f k, m.parent_flow_id ≠ some c) :
    (delete_from_step s f k).1 = Except.ok () ∧
    stepsOf (delete_from_step s f k).2 f =
      (stepsOf s f).filter (fun d => d.cursor < k) ∧
    lookupA (delete_from_step s f k).2.flows f = some m ∧
    (∀ c mc, lookupA s.flows c = some mc → mc.parent_flow_id = some f →
        ∀ pc, mc.parent_cursor = some pc → k ≤ pc →
          branch_exists (delete_from_step s f k).2 c = false) ∧
    (∀ c mc, lookupA s.flows c = some mc → mc.parent_flow_id = some f →
        ∀ pc, mc.parent_cursor = some pc → pc < k →
          branch_exists (delete_from_step s f k).2 c = true) := by
  have hf : (lookupA s.flows f).isSome := by rw [hm]; rfl
  rw [delete_from_step_eq s f k hwf hf]
  have hfnot : f ∉ childrenToDelete s f k := self_not_childToDelete hwf hm hself
  refine ⟨rfl, ?_, ?_, ?_, ?_⟩
  · show (lookupA ((truncSteps s f k).steps.filter
        (fun kv => decide (kv.1 ∉ childrenToDelete s f k))) f).getD [] = _
    rw [lookupA_filter_keep _ _ f (fun v => by simp [hfnot])]
    exact stepsOf_truncSteps_self s f k
  · show lookupA ((s.flows.filter
        (fun kv => decide (kv.1 ∉ childrenToDelete s f k))).map
        (fun kv => (kv.1, orphanAll (childrenToDelete s f k) kv.2))) f = some m
    rw [lookupA_map_value]
    rw [lookupA_filter_keep _ _ f (fun v => by simp [hfnot])]
    rw [hm]
    have horph : orphanAll (childrenToDelete s f k) m = m := by
      unfold orphanAll
      cases hp : m.parent_flow_id with
      | none => rfl
      | some q =>
        have hq : q ∉ childrenToDelete s f k := fun hq => hpar q hq (by rw [hp])
        simp [hq]
    show some (orphanAll (childrenToDelete s f k) m) = some m
    rw [horph]
  · intro c mc hcm hcp pc hcc hk
    have hcmem : c ∈ childrenToDelete s f k := by
      apply mem_childrenToDelete.mpr
      exact ⟨mc, lookupA_mem hcm, (childCond_iff f k mc).mpr ⟨hcp, pc, hcc, hk⟩⟩
    show (lookupA ((s.flows.filter
        (fun kv => decide (kv.1 ∉ childrenToDelete s f k))).map
        (fun kv => (kv.1, orphanAll (childrenToDelete s f k) kv.2))) c).isSome = false
    rw [lookupA_map_value]
    rw [lookupA_filter_drop _ _ c (fun v => by simp [hcmem])]
    rfl
  · intro c mc hcm hcp pc hcc hk
    have hcnot : c ∉ childrenToDelete s f k := by
      intro hmem
      rcases mem_childrenToDelete.mp hmem with ⟨mm, hmm, hcond⟩
      have heq : lookupA s.flows c = some mm :=
        lookupA_eq_of_mem_nodup hwf.flows_nodup hmm
      rw [hcm] at heq
      cases heq
      rcases (childCond_iff f k mc).mp hcond with ⟨_, pc', hpc', hk'⟩
      rw [hcc] at hpc'
      have : pc = pc' := Option.some.inj hpc'
      omega
    show (lookupA ((s.flows.filter
        (fun kv => decide (kv.1 ∉ childrenToDelete s f k))).map
        (fun kv => (kv.1, orphanAll (childrenToDelete s f k) kv.2))) c).isSome = true
    rw [lookupA_map_value]
    rw [lookupA_filter_keep _ _ c (fun v => by simp [hcnot])]
    rw [hcm]
    rfl

/-- Witness for C5: pruning flow 0 of the branch store from cursor 0
succeeds, erases all of flow 0's records, deletes the child (forked at
cursor 0 ≥ 0) and leaves flow 0's metadata unchanged. -/
theorem delete_from_step_spec_witness :
    (delete_from_step demoBranchStore 0 0).1 = Except.ok () ∧
    stepsOf (delete_from_step demoBranchStore 0 0).2 0 =
      (stepsOf demoBranchStore 0).filter (fun d => d.cursor < 0) ∧
    lookupA (delete_from_step demoBranchStore 0 0).2.flows 0 = some demoMeta0 ∧
    branch_exists (delete_from_step demoBranchStore 0 0).2 1 = false := by
  have h := delete_from_step_spec demoBranchStore 0 0 demoMeta0
    (reachable_wf demoBranchStore_reachable) (by decide) (by decide) (by decide)
  refine ⟨h.1, h.2.1, h.2.2.1, ?_⟩
  exact h.2.2.2.1 1
    { id := 1, name := none, status := none, created_by := none,
      current_cursor := 0, current_version := 0,
      parent_flow_id := some 0, parent_cursor := some 0,
      metadata := Json.emptyObj }
    (by decide) (by decide) 0 (by decide) (by decide)

/-- C10: `delete_from_step(f, k)` deletes only the direct children of
`f` forked at or beyond `k`; a grandchild `g` — a flow whose
`parent_flow_id` is one of those deleted children `c` — is never
deleted: it survives with `parent_flow_id` and `parent_cursor` set to
null (a root flow), because each child is removed via `delete_branch`,
which orphans rather than cascades. -/
theorem delete_from_step_spares_grandchildren
    (s : Store) (f : Nat) (k : Int) (c g : Nat) (mc mg : FlowMeta)
    (hwf : StoreWF s)
    (hf : (lookupA s.flows f).isSome)
    (hcm : lookupA s.flows c = some mc)
    (hcp : mc.parent_flow_id = some f)
    (hcc : ∃ pc, mc.parent_cursor = some pc ∧ k ≤ pc)
    (hcf : c ≠ f)
    (hgm : lookupA s.flows g = some mg)
    (hgp : mg.parent_flow_id = some c) :
    branch_exists (delete_from_step s f k).2 c = false ∧
    branch_exists (delete_from_step s f k).2 g = true ∧
    lookupA (delete_from_step s f k).2.flows g =
      some { mg with parent_flow_id := none, parent_cursor := none } := by
  rcases hcc with ⟨pc, hpc, hkpc⟩
  have hcmem : c ∈ childrenToDelete s f k :=
    mem_childrenToDelete.mpr
      ⟨mc, lookupA_mem hcm, (childCond_iff f k mc).mpr ⟨hcp, pc, hpc, hkpc⟩⟩
  have hgnot : g ∉ childrenToDelete s f k := by
    intro hmem
    rcases mem_childrenToDelete.mp hmem with ⟨mm, hmm, hcond⟩
    have heq : lookupA s.flows g = some mm :=
      lookupA_eq_of_mem_nodup hwf.flows_nodup hmm
    rw [hgm] at heq
    cases heq
    have := ((childCond_iff f k mg).mp hcond).1
    rw [hgp] at this
    exact hcf (Option.some.inj this)
  rw [delete_from_step_eq s f k hwf hf]
  refine ⟨?_, ?_, ?_⟩
  · show (lookupA ((s.flows.filter
        (fun kv => decide (kv.1 ∉ childrenToDelete s f k))).map
        (fun kv => (kv.1, orphanAll (childrenToDelete s f k) kv.2))) c).isSome = false
    rw [lookupA_map_value]
    rw [lookupA_filter_drop _ _ c (fun v => by simp [hcmem])]
    rfl
  · show (lookupA ((s.flows.filter
        (fun kv => decide (kv.1 ∉ childrenToDelete s f k))).map
        (fun kv => (kv.1, orphanAll (childrenToDelete s f k) kv.2))) g).isSome = true
    rw [lookupA_map_value]
    rw [lookupA_filter_keep _ _ g (fun v => by simp [hgnot])]
    rw [hgm]
    rfl
  · show lookupA ((s.flows.filter
        (fun kv => decide (kv.1 ∉ childrenToDelete s f k))).map
        (fun kv => (kv.1, orphanAll (childrenToDelete s f k) kv.2))) g = some _
    rw [lookupA_map_value]
    rw [lookupA_filter_keep _ _ g (fun v => by simp [hgnot])]
    rw [hgm]
    show some (orphanAll (childrenToDelete s f k) mg) = some _
    have horph : orphanAll (childrenToDelete s f k) mg =
        { mg with parent_flow_id := none, parent_cursor := none } := by
      unfold orphanAll
      rw [hgp]
      simp [hcmem]
    rw [horph]

/-- The branch store with a further branch of the child: flow 0 is the
root, flow 1 its child (forked at 0), flow 3 a grandchild (child of
flow 1, forked at 0). -/
def demoGrandStore : Store :=
  (create_branch demoBranchStore 1 none none 0 Json.emptyObj).2

theorem demoGrandStore_reachable : Reachable demoGrandStore :=
  Reachable.create_branch demoBranchStore 1 none none 0 Json.emptyObj
    demoBranchStore_reachable

/-- Witness for C10: pruning the root (flow 0) from cursor 0 deletes
the child (flow 1) but the grandchild (flow 3) survives as an orphaned
root flow. -/
theorem delete_from_step_spares_grandchildren_witness :
    branch_exists (delete_from_step demoGrandStore 0 0).2 1 = false ∧
    branch_exists (delete_from_step demoGrandStore 0 0).2 3 = true ∧
    lookupA (delete_from_step demoGrandStore 0 0).2.flows 3 =
      some { id := 3, name := none, status := none, created_by := none,
             current_cursor := 0, current_version := 0,
             parent_flow_id := none, parent_cursor := none,
             metadata := Json.emptyObj } := by
  have h := delete_from_step_spares_grandchildren demoGrandStore 0 0 1 3
    { id := 1, name := none, status := none, created_by := none,
      current_cursor := 0, current_version := 0,
      parent_flow_id := some 0, parent_cursor := some 0,
      metadata := Json.emptyObj }
    { id := 3, name := none, status := none, created_by := none,
      current_cursor := 0, current_version := 0,
      parent_flow_id := some 1, parent_cursor := some 0,
      metadata := Json.emptyObj }
    (reachable_wf demoGrandStore_reachable) (by decide) (by decide) (by decide)
    ⟨0, by decide, by decide⟩ (by decide) (by decide) (by decide)
  exact h

/-! ### Claim C6 — snapshots under branching -/

/-- State `demoFlowStore` with one snapshot of flow 0 at cursor 1. -/
def demoSnapStore : Store :=
  (save_snapshot demoFlowStore 0 1 "ptr" Json.emptyObj).2

/-- State `demoSnapStore` after the in-memory `create_branch` of flow 0 at
cursor 1 (branch id 2). -/
def demoC6Store : Store :=
  (create_branch demoSnapStore 0 none none 1 Json.emptyObj).2

/-- C6 counterexample: the in-memory `create_branch` copies no
snapshots.  The parent (flow 0) owns a snapshot at cursor 1 ≤ 1, yet
after `create_branch(0, 1, _)` the new flow (id 2) owns no snapshot at
all. -/
theorem inmemory_branch_copies_no_snapshots :
    (∃ kv ∈ demoSnapStore.snapshots, kv.2.flow_id = 0 ∧ kv.2.cursor ≤ 1) ∧
    (create_branch demoSnapStore 0 none none 1 Json.emptyObj).1 = 2 ∧
    demoC6Store.snapshots.filter (fun kv => kv.2.flow_id == 2) = [] := by
  refine ⟨by decide, by decide, by decide⟩

/-- C6 (amended, on the Diesel-backed repository): after
`create_branch(p, k, _)` every snapshot of the parent with
`cursor ≤ k` has a copy owned by the new flow with the same cursor,
`state_ptr` and metadata, under a snapshot id fresh with respect to the
pre-state (the in-memory reference diverges: it copies step records
but no snapshots, as the counterexample shows). -/
theorem diesel_branch_copies_snapshots
    (s : Store) (p : Nat) (name status : Option String) (k : Int) (md : Json)
    (b : Nat) (s' : Store)
    (hsnap : ∀ kv ∈ s.snapshots, kv.1 < s.nextId)
    (hcb : dieselCreateBranch s p name status k md = (b, s')) :
    ∀ sn ∈ s.snapshots.map Prod.snd, sn.flow_id = p → sn.cursor ≤ k →
      ∃ sn' ∈ s'.snapshots.map Prod.snd, sn'.flow_id = b ∧
        sn'.cursor = sn.cursor ∧ sn'.state_ptr = sn.state_ptr ∧
        sn'.metadata = sn.metadata ∧ sn'.id ∉ s.snapshots.map Prod.fst := by
  intro sn hsn hflow hcur
  have hb : b = s.nextId := ((Prod.mk.injEq _ _ _ _).mp hcb.symm).1
  have hs' : s' = (dieselCreateBranch s p name status k md).2 := by rw [hcb]
  subst hb
  subst hs'
  have hsnm : sn ∈ (s.snapshots.map Prod.snd).filter
      (fun m => m.flow_id == p && decide (m.cursor ≤ k)) := by
    rw [List.mem_filter]
    exact ⟨hsn, by simp [hflow, hcur]⟩
  rcases @reIdSnaps_mem_of_mem _ s.nextId
      (s.nextId + 1 + ((stepsOf s p).filter (fun d => d.cursor ≤ k)).length)
      sn hsnm with
    ⟨sn', hsn', hc1, hc2, hc3, hc4, hc5⟩
  refine ⟨sn', ?_, hc4, hc1, hc2, hc3, ?_⟩
  · show sn' ∈ ((s.snapshots ++ _).map Prod.snd)
    rw [List.map_append]
    apply List.mem_append_right
    rw [List.map_map]
    exact List.mem_map.mpr ⟨sn', hsn', rfl⟩
  · intro hmem
    rcases List.mem_map.mp hmem with ⟨kv, hkv, hfst⟩
    have := hsnap kv hkv
    omega

/-- Witness for the amended C6: branching `demoSnapStore` at cursor 1
through the Diesel `create_branch` yields a copy of the parent's
snapshot owned by the new flow (id 2) under a fresh id. -/
theorem diesel_branch_copies_snapshots_witness :
    ∃ sn' ∈ (dieselCreateBranch demoSnapStore 0 none none 1 Json.emptyObj).2.snapshots.map
        Prod.snd, sn'.flow_id = 2 ∧ sn'.cursor = 1 ∧ sn'.state_ptr = "ptr" ∧
      sn'.metadata = Json.emptyObj ∧ sn'.id ∉ demoSnapStore.snapshots.map Prod.fst := by
  have h := diesel_branch_copies_snapshots demoSnapStore 0 none none 1 Json.emptyObj 2
    (dieselCreateBranch demoSnapStore 0 none none 1 Json.emptyObj).2
    (by decide) (by rfl)
    { id := 1, flow_id := 0, cursor := 1, state_ptr := "ptr", metadata := Json.emptyObj }
    (by decide) (by decide) (by decide)
  exact h

/-! ### Claim C9 — `current_step` after rehydration -/

theorem currentStep_insertA (kv : List (Nat × MetaVal)) (f : Nat) (n : Nat)
    (st : Option String) :
    currentStep (insertA kv f (MetaVal.obj (some n) st)) f = n % 2 ^ 32 := by
  unfold currentStep getMetaKV
  rw [lookupA_insertA_self]
  rfl

/-- C9: after `rehydrate_from_storage`, `current_step()` equals — in
this order of preference — the `current_step` field of the
`flow_metadata` KV entry when that entry is set and non-null; else one
plus the largest cursor among the flow's records when any exist; else
one plus the flow's `current_cursor` when the flow exists; else 0.
(The bounds hypotheses discharge the engine's `u32` casts.) -/
theorem rehydrated_current_step_spec (s : Store) (kv : List (Nat × MetaVal)) (f : Nat) :
    (∀ (n : Nat) (st : Option String),
        getMetaKV kv f = MetaVal.obj (some n) st → n < 2 ^ 32 →
        currentStep (rehydrateKV s kv f) f = n) ∧
    (getMetaKV kv f = MetaVal.null →
      ∀ mx : Int, ((stepsOf s f).map (fun d => d.cursor)).max? = some mx →
        (∀ r ∈ stepsOf s f, 0 ≤ r.cursor) → 0 ≤ mx → mx < 2 ^ 32 - 1 →
        currentStep (rehydrateKV s kv f) f = mx.toNat + 1) ∧
    (getMetaKV kv f = MetaVal.null → stepsOf s f = [] →
      ∀ m : FlowMeta, lookupA s.flows f = some m →
        0 ≤ m.current_cursor → m.current_cursor < 2 ^ 32 - 1 →
        currentStep (rehydrateKV s kv f) f = m.current_cursor.toNat + 1) ∧
    (getMetaKV kv f = MetaVal.null → stepsOf s f = [] → lookupA s.flows f = none →
      currentStep (rehydrateKV s kv f) f = 0) := by
  have hsat : ∀ v : Int, 0 ≤ v → v < 2 ^ 32 - 1 →
      u32SatSucc (i64ToU32 v) = v.toNat + 1 := by
    intro v h0 hlt
    unfold u32SatSucc i64ToU32
    have hmod : v % (2 ^ 32 : Int) = v := Int.emod_eq_of_lt h0 (by omega)
    rw [hmod]
    omega
  refine ⟨?_, ?_, ?_, ?_⟩
  · intro n st hkv hn
    unfold rehydrateKV synchronizeStepState
    rw [hkv]
    unfold currentStep
    rw [hkv]
    exact Nat.mod_eq_of_lt hn
  · intro hkv mx hmax hpos h0 hlt
    unfold rehydrateKV synchronizeStepState
    rw [hkv]
    rw [currentStep_insertA]
    have hrd : read_data s f (-1) = stepsOf s f := by
      unfold read_data
      apply List.filter_eq_self.mpr
      intro r hr
      have := hpos r hr
      simp only [decide_eq_true_eq]
      omega
    have hstep : determineCurrentStepFromData s f = mx.toNat + 1 := by
      unfold determineCurrentStepFromData
      rw [hrd, hmax]
      exact hsat mx h0 hlt
    rw [hstep]
    apply Nat.mod_eq_of_lt
    omega
  · intro hkv hsteps m hm h0 hlt
    unfold rehydrateKV synchronizeStepState
    rw [hkv]
    rw [currentStep_insertA]
    have hrd : read_data s f (-1) = [] := by
      unfold read_data
      rw [hsteps]
      rfl
    have hstep : determineCurrentStepFromData s f = m.current_cursor.toNat + 1 := by
      unfold determineCurrentStepFromData
      rw [hrd]
      show (match (List.max? ([] : List Int)) with
        | some mx => u32SatSucc (i64ToU32 mx)
        | none => match lookupA s.flows f with
          | some meta => u32SatSucc (i64ToU32 meta.current_cursor)
          | none => 0) = _
      rw [hm]
      exact hsat m.current_cursor h0 hlt
    rw [hstep]
    apply Nat.mod_eq_of_lt
    omega
  · intro hkv hsteps hm
    unfold rehydrateKV synchronizeStepState
    rw [hkv]
    rw [currentStep_insertA]
    have hrd : read_data s f (-1) = [] := by
      unfold read_data
      rw [hsteps]
      rfl
    have hstep : determineCurrentStepFromData s f = 0 := by
      unfold determineCurrentStepFromData
      rw [hrd]
      show (match (List.max? ([] : List Int)) with
        | some mx => u32SatSucc (i64ToU32 mx)
        | none => match lookupA s.flows f with
          | some meta => u32SatSucc (i64ToU32 meta.current_cursor)
          | none => 0) = _
      rw [hm]
      rfl
    rw [hstep]
    exact Nat.zero_mod _

/-- Witness for C9, one instance per preference level: a set KV entry
wins; with a null entry the record cursors decide; with no records the
flow cursor decides; with nothing at all the step is 0. -/
theorem rehydrated_current_step_witness :
    currentStep (rehydrateKV emptyStore [(0, MetaVal.obj (some 5) none)] 0) 0 = 5 ∧
    currentStep (rehydrateKV demoStore2 [] 0) 0 = 2 ∧
    currentStep (rehydrateKV demoFlowStore [] 0) 0 = 1 ∧
    currentStep (rehydrateKV emptyStore [] 0) 0 = 0 := by
  refine ⟨?_, ?_, ?_, ?_⟩
  · exact (rehydrated_current_step_spec emptyStore
      [(0, MetaVal.obj (some 5) none)] 0).1 5 none (by decide) (by decide)
  · have h := (rehydrated_current_step_spec demoStore2 [] 0).2.1 (by decide) 1
      (by decide) (by decide) (by decide) (by decide)
    exact h
  · have h := (rehydrated_current_step_spec demoFlowStore [] 0).2.2.1 (by decide)
      (by decide) demoMeta0 (by decide) (by decide) (by decide)
    exact h
  · exact (rehydrated_current_step_spec emptyStore [] 0).2.2.2 (by decide) (by decide)
      (by decide)

end ChemFlow
